import Mathlib

/-!
# Verification of the presidium-websocket frame codec and connection state machine

Shallow embedding of the core of the `presidium-websocket` repository:

* `src/_internal/encodeWebSocketFrame.js` / `src/_internal/decodeWebSocketFrame.js`
  (the frame codec),
* the incremental decode loop `_processChunk` of `src/WebSocket.js` (v0.2.3),
* the server-side loop and upgrade handling of `src/WebSocketServer.js` (v0.2.1) and
  of the v1.0.1 draft,
* the continuation/close routing `_handleDataFrame`, `send`, `close`, `destroy`,
* the RSV1-checking decoder draft, the handshake-response decoder, and the
  unhandled-error listener.

Buffers are modelled as `List Nat` of byte values (each < 256 in the JS `Buffer`
domain).  External collaborators (zlib deflate/inflate, `crypto.randomBytes`) are
passed as explicit parameters.  Event emission and socket writes are modelled as an
explicit action trace.
-/

/-- Bytes of an ASCII string, as `Buffer.from(s)` produces for ASCII `s`. -/
def asciiBytes (s : String) : List Nat :=
  s.toList.map Char.toNat

/-- The XOR masking loop of the codec: `payload[i] ^ maskingKey[i % 4]`, with the
running index `i` made explicit.  Models both the masking loop of
`encodeWebSocketFrame` and the unmasking loop of `decodeWebSocketFrame`, which
perform the identical operation. -/
def maskBytesAux (maskingKey : List Nat) (i : Nat) : List Nat → List Nat
  | [] => []
  | b :: bs => (b ^^^ maskingKey.getD (i % 4) 0) :: maskBytesAux maskingKey (i + 1) bs

/-- XOR-mask a payload with a 4-byte masking key, starting at index 0. -/
def maskBytes (maskingKey : List Nat) (payload : List Nat) : List Nat :=
  maskBytesAux maskingKey 0 payload

/-- The 8 big-endian base-256 digits of `n`, as `Buffer.writeBigUInt64BE` stores
them (for `n < 2^64`). -/
def bytesBE8 (n : Nat) : List Nat :=
  [ n / 2 ^ 56 % 256, n / 2 ^ 48 % 256, n / 2 ^ 40 % 256, n / 2 ^ 32 % 256,
    n / 2 ^ 24 % 256, n / 2 ^ 16 % 256, n / 2 ^ 8 % 256, n % 256 ]

/-- `buffer.readUInt16BE(offset)` on a byte buffer. -/
def readUInt16BE (buffer : List Nat) (offset : Nat) : Nat :=
  buffer.getD offset 0 * 256 + buffer.getD (offset + 1) 0

/-- `Number(buffer.readBigUInt64BE(offset))` on a byte buffer. -/
def readUInt64BE (buffer : List Nat) (offset : Nat) : Nat :=
  buffer.getD offset 0 * 2 ^ 56 + buffer.getD (offset + 1) 0 * 2 ^ 48 +
  buffer.getD (offset + 2) 0 * 2 ^ 40 + buffer.getD (offset + 3) 0 * 2 ^ 32 +
  buffer.getD (offset + 4) 0 * 2 ^ 24 + buffer.getD (offset + 5) 0 * 2 ^ 16 +
  buffer.getD (offset + 6) 0 * 2 ^ 8 + buffer.getD (offset + 7) 0

/-- The decode result of `src/_internal/decodeWebSocketFrame.js`:
`{ fin, opcode, payload, remaining, masked }`. -/
structure Frame where
  fin : Bool
  opcode : Nat
  payload : List Nat
  remaining : List Nat
  masked : Bool
  deriving Repr, DecidableEq

/-- Shallow embedding of `src/_internal/decodeWebSocketFrame.js` (the variant
without permessage-deflate handling, as required by `src/WebSocket.js`).
Returns `none` for the source's `undefined` (NEED_MORE).  The source's mutable
`offset` is threaded explicitly; `buffer.slice(a, b)` is `(buffer.drop a).take (b - a)`. -/
def decodeWebSocketFrame (buffer : List Nat) : Option Frame :=
  if buffer.length < 2 then none
  else
    let firstByte := buffer.getD 0 0
    let fin := firstByte &&& 0x80 != 0
    let opcode := firstByte &&& 0x0f
    let secondByte := buffer.getD 1 0
    let masked := secondByte &&& 0x80 != 0
    let payloadLen7 := secondByte &&& 0x7f
    if payloadLen7 == 126 then
      if buffer.length < 2 + 2 then none
      else decodeRest buffer 4 (readUInt16BE buffer 2) fin opcode masked
    else if payloadLen7 == 127 then
      if buffer.length < 2 + 8 then none
      else decodeRest buffer 10 (readUInt64BE buffer 2) fin opcode masked
    else decodeRest buffer 2 payloadLen7 fin opcode masked
where
  /-- The tail of the decoder after the payload length is known: mask-presence
  check, masking-key extraction, unmasking, and the remaining slice. -/
  decodeRest (buffer : List Nat) (offset payloadLen : Nat) (fin : Bool)
      (opcode : Nat) (masked : Bool) : Option Frame :=
    if buffer.length < offset + (if masked then 4 else 0) + payloadLen then none
    else
      let maskingKey := (buffer.drop offset).take 4
      let offset2 := if masked then offset + 4 else offset
      let rawPayload := (buffer.drop offset2).take payloadLen
      let payload := if masked then maskBytes maskingKey rawPayload else rawPayload
      let remaining := buffer.drop (offset2 + payloadLen)
      some { fin := fin, opcode := opcode, payload := payload,
             remaining := remaining, masked := masked }

/-- The RFC 7692 deflate-tail convention of `encodeWebSocketFrame`: if the raw
deflate output ends in `00 00 FF FF`, strip those 4 bytes, else keep it whole. -/
def stripDeflateTail (compressedPayload : List Nat) : List Nat :=
  if 4 ≤ compressedPayload.length ∧
      compressedPayload.drop (compressedPayload.length - 4) = [0x00, 0x00, 0xff, 0xff] then
    compressedPayload.take (compressedPayload.length - 4)
  else compressedPayload

/-- Shallow embedding of `src/_internal/encodeWebSocketFrame.js`.
`deflateRaw` stands for the external `zlib.deflateRawSync` and `maskingKey` for the
external `crypto.randomBytes(4)`; both are passed in as parameters.  When
`perMessageDeflate` is set and the payload is non-empty the payload is replaced by
the (tail-stripped) deflate output and the `compressed` flag is set; the first byte
is `(fin ? 0x80 : 0) | (compressed ? 0x40 : 0) | opcode` with no opcode guard on
the 0x40 bit. -/
def encodeWebSocketFrame (deflateRaw : List Nat → List Nat) (maskingKey : List Nat)
    (payload0 : List Nat) (opcode : Nat) (mask : Bool) (fin : Bool)
    (perMessageDeflate : Bool) : List Nat :=
  let compressed := perMessageDeflate && payload0.length > 0
  let payload :=
    if perMessageDeflate && payload0.length > 0 then stripDeflateTail (deflateRaw payload0)
    else payload0
  let payloadLen := payload.length
  let firstByte :=
    (if fin then 0x80 else 0x00) ||| (if compressed then 0x40 else 0x00) ||| opcode
  let header :=
    if payloadLen < 126 then
      [firstByte, (if mask then 0x80 else 0x00) ||| payloadLen]
    else if payloadLen < 65536 then
      [firstByte, (if mask then 0x80 else 0x00) ||| 126,
        (payloadLen >>> 8) &&& 0xff, payloadLen &&& 0xff]
    else
      [firstByte, (if mask then 0x80 else 0x00) ||| 127] ++ bytesBE8 payloadLen
  if mask then header ++ maskingKey ++ maskBytes maskingKey payload
  else header ++ payload

/-- Shallow embedding of the `encodeWebSocketFrame` revision at the top of
`src/unnamed/part_018` (v1.0.1): the payload arrives already compressed and the
`compressed` flag is a parameter; the first byte guards the 0x40 bit with
`compressed && opcode !== 0x00`. -/
def encodeWebSocketFrameP18 (maskingKey : List Nat) (payload : List Nat)
    (opcode : Nat) (mask : Bool) (fin : Bool) (compressed : Bool) : List Nat :=
  let payloadLen := payload.length
  let firstByte :=
    (if fin then 0x80 else 0x00) |||
      (if compressed && opcode != 0x00 then 0x40 else 0x00) ||| opcode
  let header :=
    if payloadLen < 126 then
      [firstByte, (if mask then 0x80 else 0x00) ||| payloadLen]
    else if payloadLen < 65536 then
      [firstByte, (if mask then 0x80 else 0x00) ||| 126,
        (payloadLen >>> 8) &&& 0xff, payloadLen &&& 0xff]
    else
      [firstByte, (if mask then 0x80 else 0x00) ||| 127] ++ bytesBE8 payloadLen
  if mask then header ++ maskingKey ++ maskBytes maskingKey payload
  else header ++ payload

/-! ## Frame codec lemmas -/

/-! ## Connection state machine (`src/WebSocket.js` v0.2.3)

The observable effects of a connection — events emitted on the WebSocket and
writes/destroys on the underlying socket — are recorded in an action trace.
`ConnState` carries the mutable fields of the `WebSocket` class that the data-frame
loop touches. -/

/-- One observable effect of a connection. -/
inductive WSAction where
  | messageEvt (payload : List Nat)
  | pingEvt (payload : List Nat)
  | pongEvt (payload : List Nat)
  | openEvt
  | closeEvt (payload : Option (List Nat))
  | errorEvt (msg : String)
  | writeClose (payload : List Nat)
  | writePing (payload : List Nat)
  | writePong (payload : List Nat)
  | socketDestroy
  | errorDataEvt (msg : List Nat)
  | consoleErrorAct
  | processExitAct (code : Nat)
  deriving Repr, DecidableEq

/-- The mutable connection state of `src/WebSocket.js` (v0.2.3) touched by the
data-frame loop, plus the recorded action trace. -/
structure ConnState where
  readyState : Nat
  sentClose : Bool
  closed : Bool
  perMessageDeflate : Bool
  continuationPayloads : List (List Nat)
  trace : List WSAction
  deriving Repr, DecidableEq

/-- Append one action to the trace. -/
def emitAction (st : ConnState) (a : WSAction) : ConnState :=
  { st with trace := st.trace ++ [a] }

/-- `websocket.sendClose(payload)`: write a CLOSE frame and set `sentClose`. -/
def wsSendClose (st : ConnState) (payload : List Nat) : ConnState :=
  { emitAction st (.writeClose payload) with sentClose := true }

/-- `websocket.sendPing(payload)`: write a PING frame. -/
def wsSendPing (st : ConnState) (payload : List Nat) : ConnState :=
  emitAction st (.writePing payload)

/-- `websocket.sendPong(payload)`: write a PONG frame. -/
def wsSendPong (st : ConnState) (payload : List Nat) : ConnState :=
  emitAction st (.writePong payload)

/-- `websocket.destroy(payload)`: destroy the socket, set `closed`, set
`readyState = 3` and emit `close` with the optional payload.  The source has no
guard against repeated invocation. -/
def wsDestroy (st : ConnState) (payload : Option (List Nat)) : ConnState :=
  emitAction
    { emitAction st .socketDestroy with closed := true, readyState := 3 }
    (.closeEvt payload)

/-- `websocket.close(payload)`: set `readyState = 2` and send a CLOSE frame. -/
def wsClose (st : ConnState) (payload : List Nat) : ConnState :=
  wsSendClose { st with readyState := 2 } payload

/-- `websocket._handleDataFrame(payload, opcode, fin)` of `src/WebSocket.js`
(v0.2.3): continuation reassembly, message/ping/pong delivery, and CLOSE-frame
handling. -/
def handleDataFrame (st : ConnState) (payload : List Nat) (opcode : Nat)
    (fin : Bool) : ConnState :=
  if opcode == 0x0 then
    let st1 := { st with continuationPayloads := st.continuationPayloads ++ [payload] }
    if fin then
      { emitAction st1 (.messageEvt st1.continuationPayloads.flatten) with
          continuationPayloads := [] }
    else st1
  else if fin then
    if opcode == 0x1 ∨ opcode == 0x2 then emitAction st (.messageEvt payload)
    else if opcode == 0x8 then
      let st1 := { st with readyState := 2 }
      if st1.sentClose then wsDestroy st1 (some payload)
      else wsDestroy (wsSendClose st1 []) (some payload)
    else if opcode == 0x9 then
      wsSendPong (emitAction st (.pingEvt payload)) payload
    else if opcode == 0xA then emitAction st (.pongEvt payload)
    else st
  else { st with continuationPayloads := st.continuationPayloads ++ [payload] }

/-- The inner `while (decodeResult == null && chunks.length > 0)` loop of
`_processChunk`: shift the front chunk, and while decoding fails concatenate the
next chunk; returns the decode result, the concatenated chunk, and the chunks left
in the FIFO. -/
def shiftConcatDecode (chunk : List Nat) :
    List (List Nat) → Option Frame × List Nat × List (List Nat)
  | [] => (decodeWebSocketFrame chunk, chunk, [])
  | c :: rest =>
      match decodeWebSocketFrame chunk with
      | some f => (some f, chunk, c :: rest)
      | none => shiftConcatDecode (chunk ++ c) rest

/-- The data-frame processing loop of `websocket._processChunk` (v0.2.3), on the
chunks FIFO, with explicit loop fuel (the loop consumes at least one chunk or two
bytes per iteration, so any fuel above `fifo.flatten.length + fifo.length` is
enough; `processChunks` below supplies it).  One iteration: decode a frame
(concatenating chunks while NEED_MORE); on NEED_MORE push the concatenated chunk
back to the front and stop; on a masked frame send CLOSE with reason
"masked frame", destroy and break (the unshifted chunks stay in the FIFO);
otherwise push the remaining bytes back to the front (if non-empty), route the
frame through `_handleDataFrame`, and continue. -/
def processChunksF : Nat → ConnState → List (List Nat) → ConnState × List (List Nat)
  | 0, st, fifo => (st, fifo)
  | _ + 1, st, [] => (st, [])
  | fuel + 1, st, chunk :: rest =>
      match shiftConcatDecode chunk rest with
      | (none, chunkAll, _) => (st, [chunkAll])
      | (some f, _, rest') =>
        if f.masked then
          (wsDestroy (wsSendClose st (asciiBytes "masked frame")) none, rest')
        else
          processChunksF fuel (handleDataFrame st f.payload f.opcode f.fin)
            (if f.remaining.length > 0 then f.remaining :: rest' else rest')

/-- The data-frame loop of `_processChunk`, run to completion. -/
def processChunks (st : ConnState) (fifo : List (List Nat)) :
    ConnState × List (List Nat) :=
  processChunksF (fifo.flatten.length + fifo.length + 1) st fifo

/-- The same loop on a single concatenated buffer (the whole byte sequence fed at
once), with fuel. -/
def processBufferF : Nat → ConnState → List Nat → ConnState × List Nat
  | 0, st, b => (st, b)
  | fuel + 1, st, b =>
    match decodeWebSocketFrame b with
    | none => (st, b)
    | some f =>
      if f.masked then
        (wsDestroy (wsSendClose st (asciiBytes "masked frame")) none, [])
      else processBufferF fuel (handleDataFrame st f.payload f.opcode f.fin) f.remaining

/-- The single-buffer loop, run to completion. -/
def processBuffer (st : ConnState) (b : List Nat) : ConnState × List Nat :=
  processBufferF (b.length + 1) st b

/-- The content of a decoded frame, without the `remaining` bookkeeping field. -/
structure FrameData where
  fin : Bool
  opcode : Nat
  payload : List Nat
  masked : Bool
  deriving Repr, DecidableEq

/-- Forget the `remaining` field of a decode result. -/
def Frame.data (f : Frame) : FrameData :=
  { fin := f.fin, opcode := f.opcode, payload := f.payload, masked := f.masked }

/-- Greedy frame decoding of a byte sequence, with fuel: the list of complete
frames at the front, together with the undecodable leftover bytes. -/
def decodeFramesRestF : Nat → List Nat → List FrameData × List Nat
  | 0, b => ([], b)
  | fuel + 1, b =>
    match decodeWebSocketFrame b with
    | none => ([], b)
    | some f =>
        let r := decodeFramesRestF fuel f.remaining
        (f.data :: r.1, r.2)

/-- Greedy frame decoding, run to completion. -/
def decodeFramesRest (b : List Nat) : List FrameData × List Nat :=
  decodeFramesRestF (b.length + 1) b

/-- The sequence of complete frames decodable from the front of a byte sequence. -/
def decodeFrames (b : List Nat) : List FrameData :=
  (decodeFramesRest b).1

/-- The chunk-arrival driver: each `data` event appends its chunk to the FIFO and
runs `_processChunk`.  A destroyed socket (`closed`) emits no further `data`
events, so the remaining chunks are dropped. -/
def drive : ConnState → List (List Nat) → List (List Nat) → ConnState × List (List Nat)
  | st, pending, [] => (st, pending)
  | st, pending, c :: cs =>
    if st.closed then (st, pending)
    else
      let r := processChunks st (pending ++ [c])
      drive r.1 r.2 cs

/-- The payloads of the `message` events in a trace, in order. -/
def messageEvents : List WSAction → List (List Nat)
  | [] => []
  | .messageEvt p :: rest => p :: messageEvents rest
  | _ :: rest => messageEvents rest

/-- The connection state right after a successful client handshake:
`readyState = 1`, nothing sent, nothing buffered. -/
def openConnState : ConnState :=
  { readyState := 1, sentClose := false, closed := false, perMessageDeflate := false,
    continuationPayloads := [], trace := [] }

/-! ## Server-side model (`src/unnamed/part_018` v1.0.1, ServerWebSocket of
`src/unnamed/part_005`, RSV1-checking decoder of `src/unnamed/part_016`) -/

/-- The mutable per-connection state of a server-side `ServerWebSocket`
(`src/unnamed/part_005`), plus the once-armed `ping` listener that
`_handleUpgradedConnection` installs (`src/unnamed/part_018`) and the recorded
action trace. -/
structure ServerState where
  readyState : Nat
  sentClose : Bool
  closed : Bool
  pingOnceArmed : Bool
  continuationPayloads : List (List Nat)
  trace : List WSAction
  deriving Repr, DecidableEq

/-- Append one action to a server connection trace. -/
def ssEmit (st : ServerState) (a : WSAction) : ServerState :=
  { st with trace := st.trace ++ [a] }

/-- `websocket.sendClose(payload)` of `ServerWebSocket`. -/
def ssSendClose (st : ServerState) (payload : List Nat) : ServerState :=
  { ssEmit st (.writeClose payload) with sentClose := true }

/-- `websocket.sendPong(payload)` of `ServerWebSocket`. -/
def ssSendPong (st : ServerState) (payload : List Nat) : ServerState :=
  ssEmit st (.writePong payload)

/-- `websocket.destroy(payload)` of `ServerWebSocket`: destroy the socket, set
`closed`, set `readyState = 3`, emit `close`. -/
def ssDestroy (st : ServerState) (payload : Option (List Nat)) : ServerState :=
  ssEmit { ssEmit st .socketDestroy with closed := true, readyState := 3 }
    (.closeEvt payload)

/-- `server._handleOpen(websocket)` of `src/unnamed/part_018`: set
`readyState = 1` and emit `open`; invoked by the once-armed `ping` listener. -/
def serverHandleOpen (st : ServerState) : ServerState :=
  ssEmit { st with readyState := 1 } .openEvt

/-- `server._handleDataFrame(websocket, payload, opcode, fin)` of
`src/unnamed/part_018`, with the once-armed `ping` listener of
`_handleUpgradedConnection` running synchronously inside `emit('ping', …)`. -/
def serverHandleDataFrame (st : ServerState) (payload : List Nat) (opcode : Nat)
    (fin : Bool) : ServerState :=
  if opcode == 0x0 then
    let st1 := { st with continuationPayloads := st.continuationPayloads ++ [payload] }
    if fin then
      { ssEmit st1 (.messageEvt st1.continuationPayloads.flatten) with
          continuationPayloads := [] }
    else st1
  else if fin then
    if opcode == 0x1 ∨ opcode == 0x2 then ssEmit st (.messageEvt payload)
    else if opcode == 0x8 then
      if st.sentClose then ssDestroy st (some payload)
      else ssDestroy (ssSendClose st payload) (some payload)
    else if opcode == 0x9 then
      let st1 := ssEmit st (.pingEvt payload)
      let st2 := if st1.pingOnceArmed then
          { serverHandleOpen st1 with pingOnceArmed := false }
        else st1
      ssSendPong st2 payload
    else if opcode == 0xA then ssEmit st (.pongEvt payload)
    else st
  else { st with continuationPayloads := st.continuationPayloads ++ [payload] }

/-- The state of a freshly upgraded server connection, as produced by
`_handleUpgradedConnection` (`src/unnamed/part_018`): the `ServerWebSocket`
constructor sets `readyState = 0` (CONNECTING), and the once-armed `ping` listener
is installed; the 101 response has been written without touching `readyState` or
emitting `open`. -/
def serverAfterUpgradeState : ServerState :=
  { readyState := 0, sentClose := false, closed := false, pingOnceArmed := true,
    continuationPayloads := [], trace := [] }

/-! ## Connection lifecycle operations (`src/WebSocket.js` v0.2.3) for the
close-event accounting -/

/-- A lifecycle operation on a client connection: local `close()`, local
`destroy()`, an inbound CLOSE frame (routed by `_handleDataFrame`), a masking
violation (the masked-frame branch of `_processChunk`), or a transport error (the
`error` handler installed on the socket in `connect()`, which calls `destroy()`
and then emits `error`). -/
inductive ConnOp where
  | localClose (payload : List Nat)
  | localDestroy
  | inboundCloseFrame (payload : List Nat)
  | maskedViolation
  | transportError (msg : String)
  deriving Repr, DecidableEq

/-- Run one lifecycle operation, exactly as the corresponding source code path
does. -/
def runConnOp (st : ConnState) : ConnOp → ConnState
  | .localClose p => wsClose st p
  | .localDestroy => wsDestroy st none
  | .inboundCloseFrame p => handleDataFrame st p 0x8 true
  | .maskedViolation => wsDestroy (wsSendClose st (asciiBytes "masked frame")) none
  | .transportError m => emitAction (wsDestroy st none) (.errorEvt m)

/-- Run a sequence of lifecycle operations. -/
def runConnOps (st : ConnState) (ops : List ConnOp) : ConnState :=
  ops.foldl runConnOp st

/-- Number of `close` events in a trace. -/
def closeEventCount (trace : List WSAction) : Nat :=
  trace.countP fun a => match a with | .closeEvt _ => true | _ => false

/-- Whether a lifecycle operation reaches `websocket.destroy()` (every operation
except a local `close()`, which only sends a CLOSE frame). -/
def ConnOp.invokesDestroy : ConnOp → Bool
  | .localClose _ => false
  | _ => true

/-! ## Upgrade handling (`src/WebSocketServer.js` v0.2.1 and `src/unnamed/part_018`
v1.0.1) -/

/-- Whether `needle` is a prefix of `hay` (element-wise). -/
def startsWithSeq {α : Type} [DecidableEq α] : List α → List α → Bool
  | _, [] => true
  | [], _ :: _ => false
  | h :: hs, n :: ns => h == n && startsWithSeq hs ns

/-- Whether `needle` occurs contiguously inside `hay` — the JS
`String.prototype.includes` / `Buffer` search, at the element level. -/
def containsSeq {α : Type} [DecidableEq α] (needle : List α) : List α → Bool
  | [] => startsWithSeq ([] : List α) needle
  | h :: t => startsWithSeq (h :: t) needle || containsSeq needle t

/-- The first index at which `needle` occurs in `hay` (the JS `indexOf`; only
meaningful when the needle is present). -/
def indexOfSeq {α : Type} [DecidableEq α] (needle : List α) : List α → Nat
  | [] => 0
  | h :: t => if startsWithSeq (h :: t) needle then 0 else 1 + indexOfSeq needle t

/-- JS `s.includes(sub)` on strings. -/
def jsIncludes (s sub : String) : Bool :=
  containsSeq sub.data s.data

/-- The headers of an HTTP upgrade request that the server's `_handleUpgrade`
consults; a missing header is `none`. -/
structure UpgradeRequestHeaders where
  upgrade : Option String
  secWebSocketKey : Option String
  secWebSocketExtensions : Option String
  deriving Repr, DecidableEq

/-- `request.headers['sec-websocket-extensions']?.includes('permessage-deflate')`:
the client's compression offer (`undefined` when the header is absent). -/
def clientOffersPerMessageDeflate (h : UpgradeRequestHeaders) : Bool :=
  match h.secWebSocketExtensions with
  | some s => jsIncludes s "permessage-deflate"
  | none => false

/-- The observable outcome of `_handleUpgrade`: the response head written to the
socket (one entry per header line) and the `socket._perMessageDeflate` marking. -/
structure UpgradeResult where
  responseLines : List String
  socketPerMessageDeflate : Bool
  wrote400 : Bool
  deriving Repr, DecidableEq

/-- Shallow embedding of `server._handleUpgrade` of `src/WebSocketServer.js`
(v0.2.1).  `acceptKey` stands for the externally computed
`base64(sha1(key ‖ GUID))`.  `socket._perMessageDeflate` is set from the server's
`perMessageDeflate` option BEFORE the websocket-upgrade guard, and the
`Sec-WebSocket-Extensions` line is emitted iff `socket._perMessageDeflate` —
the client's offer is never consulted. -/
def wsServerHandleUpgradeV021 (serverPerMessageDeflate : Bool) (acceptKey : String)
    (h : UpgradeRequestHeaders) : UpgradeResult :=
  let socketPMD := serverPerMessageDeflate
  if h.upgrade == some "websocket" && h.secWebSocketKey.isSome then
    { responseLines :=
        ["HTTP/1.1 101 Switching Protocols", "Upgrade: websocket",
          "Connection: Upgrade", "Sec-WebSocket-Accept: " ++ acceptKey]
          ++ (if socketPMD then ["Sec-WebSocket-Extensions: permessage-deflate"] else []),
      socketPerMessageDeflate := socketPMD, wrote400 := false }
  else
    { responseLines := ["HTTP/1.1 400 Bad Request"],
      socketPerMessageDeflate := socketPMD, wrote400 := true }

/-- Shallow embedding of `server._handleUpgrade` of `src/unnamed/part_018`
(v1.0.1): the `Sec-WebSocket-Extensions: permessage-deflate` line is emitted, and
`socket._perMessageDeflate` is set, iff the client offered permessage-deflate AND
the server supports it. -/
def wsServerHandleUpgradeP18 (supportPerMessageDeflate : Bool) (acceptKey : String)
    (h : UpgradeRequestHeaders) : UpgradeResult :=
  if h.upgrade == some "websocket" && h.secWebSocketKey.isSome then
    let clientRequested := clientOffersPerMessageDeflate h
    { responseLines :=
        ["HTTP/1.1 101 Switching Protocols", "Upgrade: websocket",
          "Connection: Upgrade", "Sec-WebSocket-Accept: " ++ acceptKey]
          ++ (if clientRequested && supportPerMessageDeflate then
              ["Sec-WebSocket-Extensions: permessage-deflate"] else []),
      socketPerMessageDeflate := clientRequested && supportPerMessageDeflate,
      wrote400 := false }
  else
    { responseLines := ["HTTP/1.1 400 Bad Request"],
      socketPerMessageDeflate := false, wrote400 := true }

/-! ## Handshake response decoding and the open sequencing
(`src/_internal/decodeWebSocketHandshakeResponse.js`, `src/WebSocket.js` v0.2.3,
`src/unnamed/part_018`) -/

/-- The decode result of `decodeWebSocketHandshakeResponse`. -/
structure HandshakeResult where
  handshakeSucceeded : Bool
  perMessageDeflate : Bool
  message : List Nat
  remaining : List Nat
  deriving Repr, DecidableEq

/-- Shallow embedding of `src/_internal/decodeWebSocketHandshakeResponse.js` at
the byte level: the source decodes the buffer as UTF-8 and searches for ASCII
needles with `String.prototype.includes` / `indexOf`; for ASCII needles this
coincides with byte-level search. -/
def decodeWebSocketHandshakeResponse (buffer : List Nat) : Option HandshakeResult :=
  if containsSeq (asciiBytes "HTTP/1.1") buffer
      && containsSeq (asciiBytes "\r\n\r\n") buffer then
    let index := indexOfSeq (asciiBytes "\r\n\r\n") buffer + 4
    some { handshakeSucceeded := containsSeq (asciiBytes "101 Switching Protocols") buffer,
           perMessageDeflate := containsSeq (asciiBytes "permessage-deflate") buffer,
           message := buffer.take index,
           remaining := buffer.drop index }
  else none

/-- The handshake branch of `websocket._processChunk` (`src/WebSocket.js` v0.2.3,
`readyState === 0`), applied to one concatenated chunk: on NEED_MORE the chunk is
pushed back; on a failed handshake the socket is destroyed and `error` emitted; on
success the permessage-deflate flag is recorded, any remaining bytes are pushed
back, `readyState` becomes OPEN, an empty PING frame is written
(`this.sendPing()`), and only then is `open` emitted. -/
def clientProcessHandshakeChunk (st : ConnState) (chunk : List Nat) :
    ConnState × List (List Nat) :=
  match decodeWebSocketHandshakeResponse chunk with
  | none => (st, [chunk])
  | some r =>
    if !r.handshakeSucceeded then
      let st1 : ConnState := { st with closed := true, readyState := 3 }
      ({ st1 with
          trace := st1.trace ++ [.socketDestroy, .closeEvt none, .errorDataEvt r.message] },
        ([] : List (List Nat)))
    else
      let st1 := if r.perMessageDeflate then { st with perMessageDeflate := true } else st
      let fifo := if r.remaining.length > 0 then [r.remaining] else []
      let st2 : ConnState := { st1 with readyState := 1 }
      ({ st2 with trace := st2.trace ++ [.writePing [], .openEvt] }, fifo)

/-! ## The unhandled-error listener (`src/unnamed/part_006`, attached in
`src/WebSocket.js` line 77 and `src/WebSocketServer.js` line 131) -/

/-- A registered `error` listener, identified the way the JS `==` operator
compares function objects (by reference): the module-level
`unhandledErrorListener` function itself, the distinct function object produced by
`unhandledErrorListener.bind(this)` (which is what the constructors actually
register), or any other listener. -/
inductive ErrListener where
  | unhandledErrorListenerFn
  | boundUnhandledErrorListener
  | otherListener (id : Nat)
  deriving Repr, DecidableEq

/-- Shallow embedding of `unhandledErrorListener` (`src/unnamed/part_006`): if
the emitter has exactly one `error` listener and `listeners()[0]` is reference-
equal to the module-level `unhandledErrorListener` function, print the error and
exit the process with code 1; otherwise do nothing. -/
def unhandledErrorListener (errorListeners : List ErrListener) : List WSAction :=
  if errorListeners.length == 1
      && (errorListeners.getD 0 (.otherListener 0) == .unhandledErrorListenerFn) then
    [.consoleErrorAct, .processExitAct 1]
  else []

/-- The `error` listener list of a freshly constructed `WebSocket` /
`WebSocketServer` with no user listeners: the constructor registers
`unhandledErrorListener.bind(this)`, a new function object distinct from
`unhandledErrorListener` itself. -/
def autoInstalledErrorListeners : List ErrListener :=
  [.boundUnhandledErrorListener]

/-! ## Outbound `send` (`src/WebSocket.js` v0.2.3, lines 345-388) -/

/-- A `send` payload: a byte buffer, or a JS string given as its Unicode code
points. -/
inductive SendPayload where
  | buf (bytes : List Nat)
  | str (codepoints : List Nat)
  deriving Repr, DecidableEq

/-- UTF-8 encoding of one code point, as `Buffer.from(s, 'utf8')` produces. -/
def utf8EncodeChar (cp : Nat) : List Nat :=
  if cp < 0x80 then [cp]
  else if cp < 0x800 then [0xC0 ||| (cp >>> 6), 0x80 ||| (cp &&& 0x3F)]
  else if cp < 0x10000 then
    [0xE0 ||| (cp >>> 12), 0x80 ||| ((cp >>> 6) &&& 0x3F), 0x80 ||| (cp &&& 0x3F)]
  else
    [0xF0 ||| (cp >>> 18), 0x80 ||| ((cp >>> 12) &&& 0x3F),
      0x80 ||| ((cp >>> 6) &&& 0x3F), 0x80 ||| (cp &&& 0x3F)]

/-- `Buffer.from(s, 'utf8')` on a string of code points. -/
def utf8Encode (cps : List Nat) : List Nat :=
  (cps.map utf8EncodeChar).flatten

/-- The JS `payload.length` of a string: UTF-16 code units (code points beyond
the BMP count twice). -/
def jsStringLength (cps : List Nat) : Nat :=
  (cps.map fun cp => if cp < 0x10000 then 1 else 2).sum

/-- `buffer` and `opcode` chosen by `send`: byte buffer → BINARY (0x2), string →
UTF-8 bytes and TEXT (0x1). -/
def SendPayload.toBufferOpcode : SendPayload → List Nat × Nat
  | .buf l => (l, 0x2)
  | .str s => (utf8Encode s, 0x1)

/-- The JS `payload.length` of a `send` argument: byte length for a buffer,
UTF-16 length for a string. -/
def SendPayload.jsLength : SendPayload → Nat
  | .buf l => l.length
  | .str s => jsStringLength s

/-- One `encodeWebSocketFrame` invocation recorded by `send` (the arguments that
`this._socket.write(encodeWebSocketFrame.call(this, …))` passes). -/
structure WriteCall where
  payload : List Nat
  opcode : Nat
  mask : Bool
  fin : Bool
  perMessageDeflate : Bool
  deriving Repr, DecidableEq

/-- The continuation-frame loop of `send`
(`while (index < payload.length) { … }`), with fuel (one fragment is emitted per
iteration and `index` grows by `maxMessageLength ≥ 1` each time, so fuel
`payload.length + 1` covers every terminating run).  NOTE the loop bound is the
JS `payload.length` — the string length for string payloads — not
`buffer.length`. -/
def continuationWritesF (buffer : List Nat) (jsLen maxMessageLength : Nat)
    (pmd : Bool) : Nat → Nat → List WriteCall
  | 0, _ => []
  | fuel + 1, index =>
    if index < jsLen then
      { payload := (buffer.drop index).take maxMessageLength, opcode := 0x0,
        mask := true, fin := decide (jsLen ≤ index + maxMessageLength),
        perMessageDeflate := pmd }
        :: continuationWritesF buffer jsLen maxMessageLength pmd fuel
            (index + maxMessageLength)
    else []

/-- Shallow embedding of `websocket.send(payload)` of `src/WebSocket.js`
(v0.2.3), recording the `encodeWebSocketFrame` invocations: a payload of at most
`maxMessageLength` bytes goes out as a single frame with `fin = true`; a longer
one as a first frame of the first `maxMessageLength` bytes with `fin = false`
followed by the continuation loop. -/
def wsSend (maxMessageLength : Nat) (pmd : Bool) (payload : SendPayload) :
    List WriteCall :=
  let bo := payload.toBufferOpcode
  let buffer := bo.1
  let opcode := bo.2
  if buffer.length ≤ maxMessageLength then
    [{ payload := buffer, opcode := opcode, mask := true, fin := true,
       perMessageDeflate := pmd }]
  else
    { payload := buffer.take maxMessageLength, opcode := opcode, mask := true,
      fin := false, perMessageDeflate := pmd }
      :: continuationWritesF buffer payload.jsLength maxMessageLength pmd
          (payload.jsLength + 1) maxMessageLength

/-! ## Lemmas and claim theorems -/

theorem maskBytesAux_length (key : List Nat) (i : Nat) (p : List Nat) :
    (maskBytesAux key i p).length = p.length := by
  induction p generalizing i with
  | nil => rfl
  | cons b bs ih => simp [maskBytesAux, ih]

theorem maskBytes_length (key p : List Nat) : (maskBytes key p).length = p.length :=
  maskBytesAux_length key 0 p

theorem maskBytesAux_involutive (key : List Nat) (i : Nat) (p : List Nat) :
    maskBytesAux key i (maskBytesAux key i p) = p := by
  induction p generalizing i with
  | nil => rfl
  | cons b bs ih => simp [maskBytesAux, Nat.xor_cancel_right, ih]

theorem maskBytes_involutive (key p : List Nat) : maskBytes key (maskBytes key p) = p :=
  maskBytesAux_involutive key 0 p

theorem firstByte_and_15 (opcode : Nat) (hop : opcode < 16) (fin c : Bool) :
    ((if fin then 0x80 else 0x00) ||| (if c then 0x40 else 0x00) ||| opcode) &&& 0x0f
      = opcode := by
  cases fin <;> cases c <;> (interval_cases opcode <;> decide)

theorem firstByte_and_128 (opcode : Nat) (hop : opcode < 16) (fin c : Bool) :
    (((if fin then 0x80 else 0x00) ||| (if c then 0x40 else 0x00) ||| opcode) &&& 0x80 != 0)
      = fin := by
  cases fin <;> cases c <;> (interval_cases opcode <;> decide)

theorem byte1_and_127 (mask : Bool) (len : Nat) (h : len < 126) :
    ((if mask then 0x80 else 0x00) ||| len) &&& 0x7f = len := by
  cases mask <;> (interval_cases len <;> decide)

theorem byte1_and_128 (mask : Bool) (len : Nat) (h : len < 128) :
    (((if mask then 0x80 else 0x00) ||| len) &&& 0x80 != 0) = mask := by
  cases mask <;> (interval_cases len <;> decide)

theorem and_255_eq_mod (x : Nat) : x &&& 255 = x % 256 :=
  Nat.and_pow_two_sub_one_eq_mod x 8

theorem shiftRight8_eq_div (x : Nat) : x >>> 8 = x / 256 :=
  Nat.shiftRight_eq_div_pow x 8

theorem bytesBE8_recompose (n : Nat) (h : n < 2 ^ 64) :
    n / 2 ^ 56 % 256 * 2 ^ 56 + n / 2 ^ 48 % 256 * 2 ^ 48 + n / 2 ^ 40 % 256 * 2 ^ 40 +
      n / 2 ^ 32 % 256 * 2 ^ 32 + n / 2 ^ 24 % 256 * 2 ^ 24 + n / 2 ^ 16 % 256 * 2 ^ 16 +
      n / 2 ^ 8 % 256 * 2 ^ 8 + n % 256 = n := by
  omega

theorem decodeRest_exact (buffer : List Nat) (offset : Nat) (p key : List Nat)
    (mask fin : Bool) (opcode : Nat)
    (hoff : offset ≤ buffer.length)
    (hbuf : buffer.drop offset = if mask then key ++ maskBytes key p else p)
    (hkey : key.length = 4) :
    decodeWebSocketFrame.decodeRest buffer offset p.length fin opcode mask
      = some { fin := fin, opcode := opcode, payload := p, remaining := [],
               masked := mask } := by
  have hdl : (buffer.drop offset).length = buffer.length - offset := List.length_drop _ _
  cases mask with
  | false =>
      simp only [Bool.false_eq_true, if_false] at hbuf
      have hblen : buffer.length = offset + p.length := by
        rw [hbuf] at hdl; omega
      have hrem : buffer.drop (offset + p.length) = [] := by
        rw [← List.drop_drop, hbuf, List.drop_length]
      rw [decodeWebSocketFrame.decodeRest]
      rw [if_neg (by simp only [Bool.false_eq_true, if_false]; omega)]
      simp only [Bool.false_eq_true, if_false, hbuf, hrem]
      rw [List.take_length]
  | true =>
      simp only [if_true] at hbuf
      have htlen : (key ++ maskBytes key p).length = 4 + p.length := by
        simp [hkey, maskBytes_length]
      have hblen : buffer.length = offset + 4 + p.length := by
        rw [hbuf] at hdl; rw [htlen] at hdl; omega
      have hkeyeq : (buffer.drop offset).take 4 = key := by
        rw [hbuf, ← hkey, List.take_left]
      have hdrop4 : buffer.drop (offset + 4) = maskBytes key p := by
        rw [← List.drop_drop, hbuf]
        rw [show (4 : Nat) = key.length from hkey.symm, List.drop_left]
      have hraw : (buffer.drop (offset + 4)).take p.length = maskBytes key p := by
        rw [hdrop4, ← maskBytes_length key p, List.take_length]
      have hrem : buffer.drop (offset + 4 + p.length) = [] := by
        rw [← List.drop_drop, hdrop4, ← maskBytes_length key p, List.drop_length]
      rw [decodeWebSocketFrame.decodeRest]
      rw [if_neg (by simp only [if_true]; omega)]
      simp only [if_true, hkeyeq, hraw, hrem, maskBytes_involutive]

theorem decode_shapeA (fb sb : Nat) (tail p key : List Nat) (opcode : Nat) (mask fin : Bool)
    (hfb15 : fb &&& 0x0f = opcode)
    (hfb128 : (fb &&& 0x80 != 0) = fin)
    (hsb127 : sb &&& 0x7f = p.length)
    (hsb128 : (sb &&& 0x80 != 0) = mask)
    (h126 : p.length < 126)
    (htail : tail = if mask then key ++ maskBytes key p else p)
    (hkey : key.length = 4) :
    decodeWebSocketFrame (fb :: sb :: tail)
      = some { fin := fin, opcode := opcode, payload := p, remaining := [],
               masked := mask } := by
  rw [decodeWebSocketFrame]
  rw [if_neg (by simp)]
  simp only [List.getD_cons_zero, List.getD_cons_succ]
  rw [hsb127, hfb15, hfb128, hsb128]
  rw [beq_false_of_ne (by omega), beq_false_of_ne (by omega)]
  simp only [if_false, Bool.false_eq_true]
  rw [← hsb127]
  have := decodeRest_exact (fb :: sb :: tail) 2 p key mask fin opcode
    (by simp) (by simpa using htail) hkey
  rw [hsb127]
  exact this

theorem decode_shapeB (fb sb b2 b3 : Nat) (tail p key : List Nat) (opcode : Nat)
    (mask fin : Bool)
    (hfb15 : fb &&& 0x0f = opcode)
    (hfb128 : (fb &&& 0x80 != 0) = fin)
    (hsb127 : sb &&& 0x7f = 126)
    (hsb128 : (sb &&& 0x80 != 0) = mask)
    (h16 : b2 * 256 + b3 = p.length)
    (htail : tail = if mask then key ++ maskBytes key p else p)
    (hkey : key.length = 4) :
    decodeWebSocketFrame (fb :: sb :: b2 :: b3 :: tail)
      = some { fin := fin, opcode := opcode, payload := p, remaining := [],
               masked := mask } := by
  rw [decodeWebSocketFrame]
  rw [if_neg (by simp)]
  simp only [List.getD_cons_zero, List.getD_cons_succ]
  rw [hsb127, hfb15, hfb128, hsb128]
  rw [if_pos (by decide)]
  rw [if_neg (by simp)]
  have hread : readUInt16BE (fb :: sb :: b2 :: b3 :: tail) 2 = p.length := by
    simp [readUInt16BE, List.getD, h16]
  rw [hread]
  exact decodeRest_exact _ 4 p key mask fin opcode (by simp) (by simpa using htail) hkey

theorem decode_shapeC (fb sb : Nat) (tail p key : List Nat) (opcode : Nat)
    (mask fin : Bool)
    (hfb15 : fb &&& 0x0f = opcode)
    (hfb128 : (fb &&& 0x80 != 0) = fin)
    (hsb127 : sb &&& 0x7f = 127)
    (hsb128 : (sb &&& 0x80 != 0) = mask)
    (h64 : p.length < 2 ^ 64)
    (htail : tail = if mask then key ++ maskBytes key p else p)
    (hkey : key.length = 4) :
    decodeWebSocketFrame (fb :: sb :: (bytesBE8 p.length ++ tail))
      = some { fin := fin, opcode := opcode, payload := p, remaining := [],
               masked := mask } := by
  rw [decodeWebSocketFrame]
  rw [if_neg (by simp)]
  simp only [List.getD_cons_zero, List.getD_cons_succ]
  rw [hsb127, hfb15, hfb128, hsb128]
  rw [if_neg (by decide)]
  rw [if_pos (by decide)]
  rw [if_neg (by simp [bytesBE8])]
  have hread : readUInt64BE (fb :: sb :: (bytesBE8 p.length ++ tail)) 2 = p.length := by
    simp only [readUInt64BE, bytesBE8, List.cons_append, List.nil_append,
      List.getD_cons_zero, List.getD_cons_succ]
    exact bytesBE8_recompose p.length h64
  rw [hread]
  refine decodeRest_exact _ 10 p key mask fin opcode (by simp [bytesBE8]) ?_ hkey
  simpa [bytesBE8] using htail

theorem or128_and_15 (opcode : Nat) (hop : opcode < 16) : (128 ||| opcode) &&& 0x0f = opcode := by
  interval_cases opcode <;> decide

theorem or128_and_128 (opcode : Nat) (hop : opcode < 16) :
    ((128 ||| opcode) &&& 0x80 != 0) = true := by
  interval_cases opcode <;> decide

theorem len_and_127 (len : Nat) (h : len < 128) : len &&& 0x7f = len := by
  have := Nat.and_pow_two_sub_one_eq_mod len 7
  norm_num at this
  rw [this, Nat.mod_eq_of_lt h]

theorem len_and_128 (len : Nat) (h : len < 128) : (len &&& 0x80 != 0) = false := by
  interval_cases len <;> decide

theorem or128len_and_127 (len : Nat) (h : len < 128) : (128 ||| len) &&& 0x7f = len := by
  interval_cases len <;> decide

theorem or128len_and_128 (len : Nat) (h : len < 128) : ((128 ||| len) &&& 0x80 != 0) = true := by
  interval_cases len <;> decide

theorem readUInt16_recompose (len : Nat) (h : len < 65536) :
    ((len >>> 8) &&& 255) * 256 + (len &&& 255) = len := by
  rw [shiftRight8_eq_div, and_255_eq_mod, and_255_eq_mod]
  omega

/-- C1: for every byte sequence `p` of length at most `2^20`, every 4-bit opcode and
every mask flag, decoding the bytes produced by
`encodeWebSocketFrame(p, opcode, mask, fin = true)` with compression off yields a
frame whose payload equals `p` and whose `opcode`, `fin` and `masked` fields equal
the encoder's inputs, with no remaining bytes — across the 7-bit, 16-bit and 64-bit
length encodings and across masked and unmasked frames.  The masking key stands for
the encoder's `crypto.randomBytes(4)` and may be any 4 bytes. -/
theorem decodeWebSocketFrame_encodeWebSocketFrame
    (deflateRaw : List Nat → List Nat) (key p : List Nat) (opcode : Nat) (mask : Bool)
    (hkey : key.length = 4)
    (hkeyBytes : ∀ b ∈ key, b < 256)
    (hpBytes : ∀ b ∈ p, b < 256)
    (hlen : p.length ≤ 2 ^ 20)
    (hop : opcode < 16) :
    decodeWebSocketFrame (encodeWebSocketFrame deflateRaw key p opcode mask true false)
      = some { fin := true, opcode := opcode, payload := p, remaining := [],
               masked := mask } := by
  by_cases h126 : p.length < 126
  · cases mask with
    | false =>
        rw [show encodeWebSocketFrame deflateRaw key p opcode false true false
            = (128 ||| opcode) :: p.length :: p from by simp [encodeWebSocketFrame, h126]]
        exact decode_shapeA _ _ _ p key opcode false true
          (or128_and_15 opcode hop) (or128_and_128 opcode hop)
          (len_and_127 _ (by omega)) (len_and_128 _ (by omega)) h126 (by simp) hkey
    | true =>
        rw [show encodeWebSocketFrame deflateRaw key p opcode true true false
            = (128 ||| opcode) :: (128 ||| p.length) :: (key ++ maskBytes key p) from by
          simp [encodeWebSocketFrame, h126]]
        exact decode_shapeA _ _ _ p key opcode true true
          (or128_and_15 opcode hop) (or128_and_128 opcode hop)
          (or128len_and_127 _ (by omega)) (or128len_and_128 _ (by omega)) h126 (by simp) hkey
  · by_cases h65536 : p.length < 65536
    · cases mask with
      | false =>
          rw [show encodeWebSocketFrame deflateRaw key p opcode false true false
              = (128 ||| opcode) :: 126 :: ((p.length >>> 8) &&& 255) :: (p.length &&& 255)
                  :: p from by simp [encodeWebSocketFrame, h126, h65536]]
          exact decode_shapeB _ _ _ _ _ p key opcode false true
            (or128_and_15 opcode hop) (or128_and_128 opcode hop)
            (by decide) (by decide) (readUInt16_recompose _ h65536) (by simp) hkey
      | true =>
          rw [show encodeWebSocketFrame deflateRaw key p opcode true true false
              = (128 ||| opcode) :: (128 ||| 126) :: ((p.length >>> 8) &&& 255)
                  :: (p.length &&& 255) :: (key ++ maskBytes key p) from by
            simp [encodeWebSocketFrame, h126, h65536]]
          exact decode_shapeB _ _ _ _ _ p key opcode true true
            (or128_and_15 opcode hop) (or128_and_128 opcode hop)
            (by decide) (by decide) (readUInt16_recompose _ h65536) (by simp) hkey
    · have h64 : p.length < 2 ^ 64 := by
        have : (2 : Nat) ^ 20 < 2 ^ 64 := by norm_num
        omega
      cases mask with
      | false =>
          rw [show encodeWebSocketFrame deflateRaw key p opcode false true false
              = (128 ||| opcode) :: 127 :: (bytesBE8 p.length ++ p) from by
            simp [encodeWebSocketFrame, h126, h65536]]
          exact decode_shapeC _ _ _ p key opcode false true
            (or128_and_15 opcode hop) (or128_and_128 opcode hop)
            (by decide) (by decide) h64 (by simp) hkey
      | true =>
          rw [show encodeWebSocketFrame deflateRaw key p opcode true true false
              = (128 ||| opcode) :: (128 ||| 127)
                  :: (bytesBE8 p.length ++ (key ++ maskBytes key p)) from by
            simp [encodeWebSocketFrame, h126, h65536]]
          exact decode_shapeC _ _ _ p key opcode true true
            (or128_and_15 opcode hop) (or128_and_128 opcode hop)
            (by decide) (by decide) h64 (by simp) hkey

/-- C1 witness: the round-trip theorem applied at a concrete masked frame. -/
theorem decodeWebSocketFrame_encodeWebSocketFrame_witness :
    decodeWebSocketFrame (encodeWebSocketFrame id [1, 2, 3, 4] [10, 20, 30] 2 true true false)
      = some { fin := true, opcode := 2, payload := [10, 20, 30], remaining := [],
               masked := true } :=
  decodeWebSocketFrame_encodeWebSocketFrame id [1, 2, 3, 4] [10, 20, 30] 2 true
    (by decide) (by decide) (by decide) (by decide) (by decide)

theorem decodeRest_some_bound {buffer : List Nat} {offset len : Nat} {fin : Bool}
    {opcode : Nat} {masked : Bool} {f : Frame}
    (h : decodeWebSocketFrame.decodeRest buffer offset len fin opcode masked = some f)
    (hoff : 2 ≤ offset) :
    f.remaining.length + 2 ≤ buffer.length := by
  cases masked with
  | false =>
      rw [decodeWebSocketFrame.decodeRest] at h
      simp only [Bool.false_eq_true, if_false] at h
      split at h
      · exact absurd h (by simp)
      · rename_i hguard
        rw [Option.some.injEq] at h
        subst h
        simp only [List.length_drop]
        omega
  | true =>
      rw [decodeWebSocketFrame.decodeRest] at h
      simp only [if_true] at h
      split at h
      · exact absurd h (by simp)
      · rename_i hguard
        rw [Option.some.injEq] at h
        subst h
        simp only [List.length_drop]
        omega

theorem decode_some_bound {b : List Nat} {f : Frame}
    (h : decodeWebSocketFrame b = some f) :
    f.remaining.length + 2 ≤ b.length := by
  rw [decodeWebSocketFrame] at h
  split at h
  · exact absurd h (by simp)
  · dsimp only [] at h
    split at h
    · split at h
      · exact absurd h (by simp)
      · exact decodeRest_some_bound h (by omega)
    · split at h
      · split at h
        · exact absurd h (by simp)
        · exact decodeRest_some_bound h (by omega)
      · exact decodeRest_some_bound h (by omega)

theorem decodeRest_extend {buffer e : List Nat} {offset len : Nat} {fin : Bool}
    {opcode : Nat} {masked : Bool} {f : Frame}
    (h : decodeWebSocketFrame.decodeRest buffer offset len fin opcode masked = some f) :
    decodeWebSocketFrame.decodeRest (buffer ++ e) offset len fin opcode masked
      = some { f with remaining := f.remaining ++ e } := by
  cases masked with
  | false =>
      rw [decodeWebSocketFrame.decodeRest] at h
      simp only [Bool.false_eq_true, if_false] at h
      split at h
      · exact absurd h (by simp)
      · rename_i hguard
        rw [Option.some.injEq] at h
        subst h
        rw [decodeWebSocketFrame.decodeRest]
        simp only [Bool.false_eq_true, if_false]
        rw [if_neg (by simp only [List.length_append]; omega)]
        have hd : (buffer ++ e).drop offset = buffer.drop offset ++ e :=
          List.drop_append_of_le_length (by omega)
        have ht : (buffer.drop offset ++ e).take len = (buffer.drop offset).take len :=
          List.take_append_of_le_length (by simp only [List.length_drop]; omega)
        have hr : (buffer ++ e).drop (offset + len) = buffer.drop (offset + len) ++ e :=
          List.drop_append_of_le_length (by omega)
        simp only [hd, ht, hr]
  | true =>
      rw [decodeWebSocketFrame.decodeRest] at h
      simp only [if_true] at h
      split at h
      · exact absurd h (by simp)
      · rename_i hguard
        rw [Option.some.injEq] at h
        subst h
        rw [decodeWebSocketFrame.decodeRest]
        simp only [if_true]
        rw [if_neg (by simp only [List.length_append]; omega)]
        have hd : (buffer ++ e).drop offset = buffer.drop offset ++ e :=
          List.drop_append_of_le_length (by omega)
        have htk : (buffer.drop offset ++ e).take 4 = (buffer.drop offset).take 4 :=
          List.take_append_of_le_length (by simp only [List.length_drop]; omega)
        have hd4 : (buffer ++ e).drop (offset + 4) = buffer.drop (offset + 4) ++ e :=
          List.drop_append_of_le_length (by omega)
        have ht : (buffer.drop (offset + 4) ++ e).take len
            = (buffer.drop (offset + 4)).take len :=
          List.take_append_of_le_length (by simp only [List.length_drop]; omega)
        have hr : (buffer ++ e).drop (offset + 4 + len)
            = buffer.drop (offset + 4 + len) ++ e :=
          List.drop_append_of_le_length (by omega)
        simp only [hd, htk, hd4, ht, hr]

theorem decode_extend {b e : List Nat} {f : Frame}
    (h : decodeWebSocketFrame b = some f) :
    decodeWebSocketFrame (b ++ e) = some { f with remaining := f.remaining ++ e } := by
  rw [decodeWebSocketFrame] at h
  split at h
  · exact absurd h (by simp)
  · rename_i hlen2
    dsimp only [] at h
    rw [decodeWebSocketFrame]
    rw [if_neg (by simp only [List.length_append]; omega)]
    dsimp only []
    have h0 : (b ++ e).getD 0 0 = b.getD 0 0 := List.getD_append _ _ _ _ (by omega)
    have h1 : (b ++ e).getD 1 0 = b.getD 1 0 := List.getD_append _ _ _ _ (by omega)
    rw [h0, h1]
    split at h
    · rename_i hc
      rw [if_pos hc]
      split at h
      · exact absurd h (by simp)
      · rename_i hg4
        rw [if_neg (by simp only [List.length_append]; omega)]
        have hread : readUInt16BE (b ++ e) 2 = readUInt16BE b 2 := by
          unfold readUInt16BE
          rw [List.getD_append _ _ _ _ (by omega), List.getD_append _ _ _ _ (by omega)]
        rw [hread]
        exact decodeRest_extend h
    · rename_i hc
      rw [if_neg hc]
      split at h
      · rename_i hc2
        rw [if_pos hc2]
        split at h
        · exact absurd h (by simp)
        · rename_i hg10
          rw [if_neg (by simp only [List.length_append]; omega)]
          have hread : readUInt64BE (b ++ e) 2 = readUInt64BE b 2 := by
            unfold readUInt64BE
            rw [List.getD_append _ _ _ _ (by omega), List.getD_append _ _ _ _ (by omega),
              List.getD_append _ _ _ _ (by omega), List.getD_append _ _ _ _ (by omega),
              List.getD_append _ _ _ _ (by omega), List.getD_append _ _ _ _ (by omega),
              List.getD_append _ _ _ _ (by omega), List.getD_append _ _ _ _ (by omega)]
          rw [hread]
          exact decodeRest_extend h
      · rename_i hc2
        rw [if_neg hc2]
        exact decodeRest_extend h

theorem shiftConcatDecode_none {chunk : List Nat} {rest : List (List Nat)}
    {cAll : List Nat} {rest' : List (List Nat)}
    (h : shiftConcatDecode chunk rest = (none, cAll, rest')) :
    cAll = chunk ++ rest.flatten ∧ rest' = [] ∧ decodeWebSocketFrame cAll = none := by
  induction rest generalizing chunk with
  | nil =>
      rw [shiftConcatDecode] at h
      simp only [Prod.mk.injEq] at h
      obtain ⟨h1, h2, h3⟩ := h
      subst h2
      exact ⟨by simp, h3.symm, h1⟩
  | cons c rtl ih =>
      rw [shiftConcatDecode] at h
      split at h
      · simp at h
      · rename_i hdec
        obtain ⟨h1, h2, h3⟩ := ih h
        refine ⟨?_, h2, h3⟩
        rw [h1]
        simp

theorem shiftConcatDecode_some {chunk : List Nat} {rest : List (List Nat)}
    {f : Frame} {cAll : List Nat} {rest' : List (List Nat)}
    (h : shiftConcatDecode chunk rest = (some f, cAll, rest')) :
    decodeWebSocketFrame cAll = some f ∧
      cAll ++ rest'.flatten = chunk ++ rest.flatten ∧
      rest'.length ≤ rest.length := by
  induction rest generalizing chunk with
  | nil =>
      rw [shiftConcatDecode] at h
      simp only [Prod.mk.injEq] at h
      obtain ⟨h1, h2, h3⟩ := h
      subst h2
      exact ⟨h1, by simp [← h3], by simp [← h3]⟩
  | cons c rtl ih =>
      rw [shiftConcatDecode] at h
      split at h
      · rename_i f0 hdec
        simp only [Prod.mk.injEq] at h
        obtain ⟨h1, h2, h3⟩ := h
        subst h2
        rw [← h3, ← h1]
        exact ⟨hdec, rfl, le_refl _⟩
      · rename_i hdec
        obtain ⟨h1, h2, h3⟩ := ih h
        refine ⟨h1, ?_, by simp only [List.length_cons]; omega⟩
        rw [h2]
        simp

theorem processBufferF_congr :
    ∀ {fuel fuel' : Nat} (st : ConnState) (b : List Nat),
      b.length < fuel → b.length < fuel' →
      processBufferF fuel st b = processBufferF fuel' st b := by
  intro fuel
  induction fuel with
  | zero => intro fuel' st b h h'; omega
  | succ n ih =>
      intro fuel' st b h h'
      cases fuel' with
      | zero => omega
      | succ m =>
          rw [processBufferF, processBufferF]
          rcases hdec : decodeWebSocketFrame b with _ | f
          · rfl
          · have hb := decode_some_bound hdec
            by_cases hm : f.masked
            · simp [hm]
            · simp only [hm, Bool.false_eq_true, if_false]
              exact ih _ _ (by omega) (by omega)

theorem processBuffer_eq (st : ConnState) (b : List Nat) :
    processBuffer st b =
      match decodeWebSocketFrame b with
      | none => (st, b)
      | some f =>
        if f.masked then
          (wsDestroy (wsSendClose st (asciiBytes "masked frame")) none, [])
        else processBuffer (handleDataFrame st f.payload f.opcode f.fin) f.remaining := by
  rw [processBuffer, processBufferF]
  rcases hdec : decodeWebSocketFrame b with _ | f
  · rfl
  · have hb := decode_some_bound hdec
    by_cases hm : f.masked
    · simp [hm]
    · simp only [hm, Bool.false_eq_true, if_false]
      exact processBufferF_congr _ _ (by omega) (by omega)

theorem decodeFramesRestF_congr :
    ∀ (fuel fuel' : Nat) (b : List Nat),
      b.length < fuel → b.length < fuel' →
      decodeFramesRestF fuel b = decodeFramesRestF fuel' b := by
  intro fuel
  induction fuel with
  | zero => intro fuel' b h h'; omega
  | succ n ih =>
      intro fuel' b h h'
      cases fuel' with
      | zero => omega
      | succ m =>
          rw [decodeFramesRestF, decodeFramesRestF]
          rcases hdec : decodeWebSocketFrame b with _ | f
          · rfl
          · have hb := decode_some_bound hdec
            have heq : decodeFramesRestF n f.remaining = decodeFramesRestF m f.remaining :=
              ih m f.remaining (by omega) (by omega)
            simp only [heq]

theorem decodeFramesRest_eq (b : List Nat) :
    decodeFramesRest b =
      match decodeWebSocketFrame b with
      | none => ([], b)
      | some f =>
          (f.data :: (decodeFramesRest f.remaining).1, (decodeFramesRest f.remaining).2) := by
  rw [decodeFramesRest, decodeFramesRestF]
  rcases hdec : decodeWebSocketFrame b with _ | f
  · rfl
  · have hb := decode_some_bound hdec
    have heq : decodeFramesRestF (b.length) f.remaining
        = decodeFramesRestF (f.remaining.length + 1) f.remaining :=
      decodeFramesRestF_congr _ _ f.remaining (by omega) (by omega)
    simp only [heq]
    rfl

theorem decodeFrames_eq (b : List Nat) :
    decodeFrames b =
      match decodeWebSocketFrame b with
      | none => []
      | some f => f.data :: decodeFrames f.remaining := by
  rw [decodeFrames, decodeFramesRest_eq]
  rcases hdec : decodeWebSocketFrame b with _ | f <;> rfl

theorem processChunksF_congr :
    ∀ {fuel fuel' : Nat} (st : ConnState) (fifo : List (List Nat)),
      fifo.flatten.length + fifo.length < fuel →
      fifo.flatten.length + fifo.length < fuel' →
      processChunksF fuel st fifo = processChunksF fuel' st fifo := by
  intro fuel
  induction fuel with
  | zero => intro fuel' st fifo h h'; omega
  | succ n ih =>
      intro fuel' st fifo h h'
      cases fuel' with
      | zero => omega
      | succ m =>
          rcases fifo with _ | ⟨chunk, rest⟩
          · rfl
          · rcases hscd : shiftConcatDecode chunk rest with ⟨fo, cAll, rest'⟩
            simp only [processChunksF, hscd]
            rcases fo with _ | f
            · rfl
            · obtain ⟨hdec, hjoin, hlen⟩ := shiftConcatDecode_some hscd
              have hbound := decode_some_bound hdec
              have hj := congrArg List.length hjoin
              rw [List.length_append, List.length_append] at hj
              by_cases hm : f.masked
              · simp [hm]
              · simp only [hm, Bool.false_eq_true, if_false]
                by_cases hrem : f.remaining.length > 0
                · simp only [if_pos hrem]
                  refine ih _ _ ?_ ?_ <;>
                    simp only [List.flatten_cons, List.length_append, List.length_cons] at h h' ⊢ <;>
                    omega
                · simp only [if_neg hrem]
                  refine ih _ _ ?_ ?_ <;>
                    simp only [List.flatten_cons, List.length_append, List.length_cons] at h h' ⊢ <;>
                    omega

theorem processChunks_eq (st : ConnState) (fifo : List (List Nat)) :
    processChunks st fifo =
      match fifo with
      | [] => (st, [])
      | chunk :: rest =>
        match shiftConcatDecode chunk rest with
        | (none, chunkAll, _) => (st, [chunkAll])
        | (some f, _, rest') =>
          if f.masked then
            (wsDestroy (wsSendClose st (asciiBytes "masked frame")) none, rest')
          else
            processChunks (handleDataFrame st f.payload f.opcode f.fin)
              (if f.remaining.length > 0 then f.remaining :: rest' else rest') := by
  rw [processChunks]
  rcases fifo with _ | ⟨chunk, rest⟩
  · rfl
  · rcases hscd : shiftConcatDecode chunk rest with ⟨fo, cAll, rest'⟩
    simp only [processChunksF, hscd]
    rcases fo with _ | f
    · rfl
    · obtain ⟨hdec, hjoin, hlen⟩ := shiftConcatDecode_some hscd
      have hbound := decode_some_bound hdec
      have hj := congrArg List.length hjoin
      rw [List.length_append, List.length_append] at hj
      by_cases hm : f.masked
      · simp [hm]
      · simp only [hm, Bool.false_eq_true, if_false]
        rw [processChunks]
        by_cases hrem : f.remaining.length > 0
        · simp only [if_pos hrem]
          refine processChunksF_congr _ _ ?_ ?_ <;>
            (try simp only [List.flatten_cons, List.length_append, List.length_cons]) <;> omega
        · simp only [if_neg hrem]
          refine processChunksF_congr _ _ ?_ ?_ <;>
            (try simp only [List.flatten_cons, List.length_append, List.length_cons]) <;> omega

theorem decodeFramesRest_none {b : List Nat} (h : decodeWebSocketFrame b = none) :
    decodeFramesRest b = ([], b) := by
  rw [decodeFramesRest_eq, h]

theorem decodeFramesRest_some {b : List Nat} {f : Frame}
    (h : decodeWebSocketFrame b = some f) :
    decodeFramesRest b
      = (f.data :: (decodeFramesRest f.remaining).1, (decodeFramesRest f.remaining).2) := by
  rw [decodeFramesRest_eq, h]

theorem extend_data (f : Frame) (e : List Nat) :
    (Frame.data { f with remaining := f.remaining ++ e }) = f.data := rfl

theorem decodeFramesRest_append :
    ∀ (n : Nat) (b e : List Nat), b.length ≤ n →
      decodeFrames (b ++ e) = decodeFrames b ++ decodeFrames ((decodeFramesRest b).2 ++ e) ∧
      (decodeFramesRest (b ++ e)).2 = (decodeFramesRest ((decodeFramesRest b).2 ++ e)).2 := by
  intro n
  induction n using Nat.strong_induction_on with
  | _ n ih =>
    intro b e hb
    rcases hdec : decodeWebSocketFrame b with _ | f
    · simp [decodeFrames, decodeFramesRest_none hdec]
    · have hext := decode_extend (e := e) hdec
      have hbound := decode_some_bound hdec
      obtain ⟨ih1, ih2⟩ := ih f.remaining.length (by omega) f.remaining e (le_refl _)
      have e1 : decodeFrames (b ++ e) = f.data :: (decodeFramesRest (f.remaining ++ e)).1 := by
        rw [decodeFrames, decodeFramesRest_some hext]
        rfl
      have e2 : decodeFrames b = f.data :: (decodeFramesRest f.remaining).1 := by
        rw [decodeFrames, decodeFramesRest_some hdec]
      have e3 : (decodeFramesRest b).2 = (decodeFramesRest f.remaining).2 := by
        rw [decodeFramesRest_some hdec]
      have e4 : (decodeFramesRest (b ++ e)).2 = (decodeFramesRest (f.remaining ++ e)).2 := by
        rw [decodeFramesRest_some hext]
      constructor
      · rw [e1, e2, e3, List.cons_append]
        show f.data :: decodeFrames (f.remaining ++ e) = _
        rw [ih1]
        rfl
      · rw [e4, e3]
        exact ih2

theorem handleDataFrame_closed (st : ConnState) (p : List Nat) (op : Nat) (fin : Bool)
    (h : op ≠ 8) : (handleDataFrame st p op fin).closed = st.closed := by
  unfold handleDataFrame
  have h8 : (op == 8) = false := beq_false_of_ne h
  split_ifs <;>
    simp_all [emitAction, wsSendPong, wsSendClose, wsDestroy]

theorem processBuffer_append :
    ∀ (n : Nat) (st : ConnState) (b1 b2 : List Nat), b1.length ≤ n →
      (∀ fd ∈ decodeFrames b1, fd.masked = false) →
      processBuffer st (b1 ++ b2)
        = processBuffer (processBuffer st b1).1 ((processBuffer st b1).2 ++ b2) := by
  intro n
  induction n using Nat.strong_induction_on with
  | _ n ih =>
    intro st b1 b2 hb hben
    rcases hdec : decodeWebSocketFrame b1 with _ | f
    · rw [show processBuffer st b1 = (st, b1) from by rw [processBuffer_eq, hdec]]
    · have hext := decode_extend (e := b2) hdec
      have hbound := decode_some_bound hdec
      have hfmem : f.data ∈ decodeFrames b1 := by
        rw [decodeFrames_eq, hdec]
        exact List.mem_cons_self _ _
      have hmask : f.masked = false := hben f.data hfmem
      have hben' : ∀ fd ∈ decodeFrames f.remaining, fd.masked = false := by
        intro fd hfd
        refine hben fd ?_
        rw [decodeFrames_eq, hdec]
        exact List.mem_cons_of_mem _ hfd
      have hL : processBuffer st (b1 ++ b2)
          = processBuffer (handleDataFrame st f.payload f.opcode f.fin) (f.remaining ++ b2) := by
        rw [processBuffer_eq, hext]
        simp only [hmask]
        rfl
      have hR : processBuffer st b1
          = processBuffer (handleDataFrame st f.payload f.opcode f.fin) f.remaining := by
        rw [processBuffer_eq, hdec]
        simp only [hmask]
        rfl
      rw [hL, hR]
      exact ih f.remaining.length (by omega) _ f.remaining b2 (le_refl _) hben'

theorem processBuffer_no_abort :
    ∀ (n : Nat) (st : ConnState) (b : List Nat), b.length ≤ n →
      (∀ fd ∈ decodeFrames b, fd.masked = false) →
      (processBuffer st b).2 = (decodeFramesRest b).2 ∧
      decodeWebSocketFrame (processBuffer st b).2 = none := by
  intro n
  induction n using Nat.strong_induction_on with
  | _ n ih =>
    intro st b hb hben
    rcases hdec : decodeWebSocketFrame b with _ | f
    · rw [show processBuffer st b = (st, b) from by rw [processBuffer_eq, hdec]]
      rw [decodeFramesRest_none hdec]
      exact ⟨rfl, hdec⟩
    · have hbound := decode_some_bound hdec
      have hmask : f.masked = false := by
        refine hben f.data ?_
        rw [decodeFrames_eq, hdec]
        exact List.mem_cons_self _ _
      have hben' : ∀ fd ∈ decodeFrames f.remaining, fd.masked = false := by
        intro fd hfd
        refine hben fd ?_
        rw [decodeFrames_eq, hdec]
        exact List.mem_cons_of_mem _ hfd
      have hR : processBuffer st b
          = processBuffer (handleDataFrame st f.payload f.opcode f.fin) f.remaining := by
        rw [processBuffer_eq, hdec]
        simp only [hmask]
        rfl
      rw [hR, decodeFramesRest_some hdec]
      exact ih f.remaining.length (by omega) _ f.remaining (le_refl _) hben'

theorem processBuffer_closed :
    ∀ (n : Nat) (st : ConnState) (b : List Nat), b.length ≤ n →
      (∀ fd ∈ decodeFrames b, fd.masked = false ∧ fd.opcode ≠ 8) →
      (processBuffer st b).1.closed = st.closed := by
  intro n
  induction n using Nat.strong_induction_on with
  | _ n ih =>
    intro st b hb hben
    rcases hdec : decodeWebSocketFrame b with _ | f
    · rw [show processBuffer st b = (st, b) from by rw [processBuffer_eq, hdec]]
    · have hbound := decode_some_bound hdec
      have hmem : f.data ∈ decodeFrames b := by
        rw [decodeFrames_eq, hdec]
        exact List.mem_cons_self _ _
      obtain ⟨hmask0, hop0⟩ := hben f.data hmem
      have hmask : f.masked = false := hmask0
      have hop : f.opcode ≠ 8 := hop0
      have hben' : ∀ fd ∈ decodeFrames f.remaining, fd.masked = false ∧ fd.opcode ≠ 8 := by
        intro fd hfd
        refine hben fd ?_
        rw [decodeFrames_eq, hdec]
        exact List.mem_cons_of_mem _ hfd
      have hR : processBuffer st b
          = processBuffer (handleDataFrame st f.payload f.opcode f.fin) f.remaining := by
        rw [processBuffer_eq, hdec]
        simp only [hmask]
        rfl
      rw [hR]
      rw [ih f.remaining.length (by omega) _ f.remaining (le_refl _) hben']
      exact handleDataFrame_closed st f.payload f.opcode f.fin hop

theorem processChunks_nil (st : ConnState) : processChunks st [] = (st, []) := rfl

theorem processChunks_cons_none {chunk : List Nat} {rest : List (List Nat)}
    {cAll : List Nat} {r : List (List Nat)} (st : ConnState)
    (h : shiftConcatDecode chunk rest = (none, cAll, r)) :
    processChunks st (chunk :: rest) = (st, [cAll]) := by
  rw [processChunks]
  simp only [processChunksF, h]

theorem processChunks_cons_masked {chunk : List Nat} {rest : List (List Nat)}
    {f : Frame} {cAll : List Nat} {rest' : List (List Nat)} (st : ConnState)
    (h : shiftConcatDecode chunk rest = (some f, cAll, rest'))
    (hm : f.masked = true) :
    processChunks st (chunk :: rest)
      = (wsDestroy (wsSendClose st (asciiBytes "masked frame")) none, rest') := by
  rw [processChunks]
  simp only [processChunksF, h, hm, if_true]

theorem processChunks_cons_some {chunk : List Nat} {rest : List (List Nat)}
    {f : Frame} {cAll : List Nat} {rest' : List (List Nat)} (st : ConnState)
    (h : shiftConcatDecode chunk rest = (some f, cAll, rest'))
    (hm : f.masked = false) :
    processChunks st (chunk :: rest)
      = processChunks (handleDataFrame st f.payload f.opcode f.fin)
          (if f.remaining.length > 0 then f.remaining :: rest' else rest') := by
  rw [processChunks]
  simp only [processChunksF, h, hm, Bool.false_eq_true, if_false]
  obtain ⟨hdec, hjoin, hlen⟩ := shiftConcatDecode_some h
  have hbound := decode_some_bound hdec
  have hj := congrArg List.length hjoin
  rw [List.length_append, List.length_append] at hj
  rw [processChunks]
  refine processChunksF_congr _ _ ?_ ?_ <;>
    (try simp only [List.flatten_cons, List.length_append, List.length_cons]) <;>
    split <;>
    (try simp only [List.flatten_cons, List.length_append, List.length_cons]) <;> omega

theorem processChunks_join :
    ∀ (n : Nat) (st : ConnState) (fifo : List (List Nat)),
      fifo.flatten.length + fifo.length ≤ n →
      (∀ fd ∈ decodeFrames fifo.flatten, fd.masked = false) →
      (processChunks st fifo).1 = (processBuffer st fifo.flatten).1 ∧
      (processChunks st fifo).2.flatten = (processBuffer st fifo.flatten).2 := by
  intro n
  induction n using Nat.strong_induction_on with
  | _ n ih =>
    intro st fifo hn hben
    rcases fifo with _ | ⟨chunk, rest⟩
    · rw [processChunks_nil]
      rw [show processBuffer st ([] : List (List Nat)).flatten = (st, []) from by
        rw [processBuffer_eq]; rfl]
      exact ⟨rfl, rfl⟩
    · rcases hscd : shiftConcatDecode chunk rest with ⟨fo, cAll, rest'⟩
      have hflat : (chunk :: rest).flatten = chunk ++ rest.flatten := by simp
      rcases fo with _ | f
      · obtain ⟨hcall, hrest, hdec⟩ := shiftConcatDecode_none hscd
        rw [processChunks_cons_none st hscd]
        have hdecf : decodeWebSocketFrame (chunk :: rest).flatten = none := by
          rw [hflat, ← hcall]; exact hdec
        rw [show processBuffer st (chunk :: rest).flatten = (st, (chunk :: rest).flatten) from by
          rw [processBuffer_eq, hdecf]]
        refine ⟨rfl, ?_⟩
        simp [hcall]
      · obtain ⟨hdec, hjoin, hlen⟩ := shiftConcatDecode_some hscd
        have hbound := decode_some_bound hdec
        have hj := congrArg List.length hjoin
        rw [List.length_append, List.length_append] at hj
        have hext : decodeWebSocketFrame (chunk :: rest).flatten
            = some { f with remaining := f.remaining ++ rest'.flatten } := by
          rw [hflat, ← hjoin]
          exact decode_extend hdec
        have hmask : f.masked = false := by
          have := hben (Frame.data { f with remaining := f.remaining ++ rest'.flatten })
            (by rw [decodeFrames_eq, hext]; exact List.mem_cons_self _ _)
          exact this
        have hben' : ∀ fd ∈ decodeFrames (f.remaining ++ rest'.flatten), fd.masked = false := by
          intro fd hfd
          refine hben fd ?_
          rw [decodeFrames_eq, hext]
          exact List.mem_cons_of_mem _ hfd
        rw [processChunks_cons_some st hscd hmask]
        have hpb : processBuffer st (chunk :: rest).flatten
            = processBuffer (handleDataFrame st f.payload f.opcode f.fin)
                (f.remaining ++ rest'.flatten) := by
          rw [processBuffer_eq, hext]
          simp only [hmask]
          rfl
        rw [hpb]
        set fifo' := if f.remaining.length > 0 then f.remaining :: rest' else rest' with hfifo'
        have hflat' : fifo'.flatten = f.remaining ++ rest'.flatten := by
          rw [hfifo']
          by_cases hrem : f.remaining.length > 0
          · simp [hrem]
          · have : f.remaining = [] := List.eq_nil_of_length_eq_zero (by omega)
            simp [hrem, this]
        have hmeas : fifo'.flatten.length + fifo'.length ≤ n - 1 := by
          have h1 : fifo'.length ≤ rest'.length + 1 := by
            rw [hfifo']
            by_cases hrem : f.remaining.length > 0
            · simp [hrem]
            · simp [hrem]
          have h2 := congrArg List.length hflat'
          rw [List.length_append] at h2
          simp only [List.flatten_cons, List.length_append, List.length_cons] at hn
          omega
        have hben'' : ∀ fd ∈ decodeFrames fifo'.flatten, fd.masked = false := by
          rw [hflat']; exact hben'
        obtain ⟨ihl, ihr⟩ := ih (n - 1) (by
            simp only [List.flatten_cons, List.length_append, List.length_cons] at hn
            omega) _ fifo' hmeas hben''
        rw [← hflat']
        exact ⟨ihl, ihr⟩

theorem processChunks_join_state :
    ∀ (n : Nat) (st : ConnState) (fifo : List (List Nat)),
      fifo.flatten.length + fifo.length ≤ n →
      (processChunks st fifo).1 = (processBuffer st fifo.flatten).1 := by
  intro n
  induction n using Nat.strong_induction_on with
  | _ n ih =>
    intro st fifo hn
    rcases fifo with _ | ⟨chunk, rest⟩
    · rw [processChunks_nil]
      rw [show processBuffer st ([] : List (List Nat)).flatten = (st, []) from by
        rw [processBuffer_eq]; rfl]
    · rcases hscd : shiftConcatDecode chunk rest with ⟨fo, cAll, rest'⟩
      have hflat : (chunk :: rest).flatten = chunk ++ rest.flatten := by simp
      rcases fo with _ | f
      · obtain ⟨hcall, hrest, hdec⟩ := shiftConcatDecode_none hscd
        rw [processChunks_cons_none st hscd]
        have hdecf : decodeWebSocketFrame (chunk :: rest).flatten = none := by
          rw [hflat, ← hcall]; exact hdec
        rw [show processBuffer st (chunk :: rest).flatten = (st, (chunk :: rest).flatten) from by
          rw [processBuffer_eq, hdecf]]
      · obtain ⟨hdec, hjoin, hlen⟩ := shiftConcatDecode_some hscd
        have hbound := decode_some_bound hdec
        have hj := congrArg List.length hjoin
        rw [List.length_append, List.length_append] at hj
        have hext : decodeWebSocketFrame (chunk :: rest).flatten
            = some { f with remaining := f.remaining ++ rest'.flatten } := by
          rw [hflat, ← hjoin]
          exact decode_extend hdec
        by_cases hm : f.masked
        · rw [processChunks_cons_masked st hscd hm]
          rw [show processBuffer st (chunk :: rest).flatten
              = (wsDestroy (wsSendClose st (asciiBytes "masked frame")) none, []) from by
            rw [processBuffer_eq, hext]
            simp only [hm]
            rfl]
        · have hm' : f.masked = false := by
            rcases hmm : f.masked
            · rfl
            · exact absurd hmm hm
          rw [processChunks_cons_some st hscd hm']
          have hpb : processBuffer st (chunk :: rest).flatten
              = processBuffer (handleDataFrame st f.payload f.opcode f.fin)
                  (f.remaining ++ rest'.flatten) := by
            rw [processBuffer_eq, hext]
            simp only [hm']
            rfl
          rw [hpb]
          set fifo' := if f.remaining.length > 0 then f.remaining :: rest' else rest' with hfifo'
          have hflat' : fifo'.flatten = f.remaining ++ rest'.flatten := by
            rw [hfifo']
            by_cases hrem : f.remaining.length > 0
            · simp [hrem]
            · have : f.remaining = [] := List.eq_nil_of_length_eq_zero (by omega)
              simp [hrem, this]
          have hmeas : fifo'.flatten.length + fifo'.length ≤ n - 1 := by
            have h1 : fifo'.length ≤ rest'.length + 1 := by
              rw [hfifo']
              by_cases hrem : f.remaining.length > 0
              · simp [hrem]
              · simp [hrem]
            have h2 := congrArg List.length hflat'
            rw [List.length_append] at h2
            simp only [List.flatten_cons, List.length_append, List.length_cons] at hn
            omega
          rw [← hflat']
          exact ih (n - 1) (by
              simp only [List.flatten_cons, List.length_append, List.length_cons] at hn
              omega) _ fifo' hmeas

theorem drive_closed :
    ∀ (cs : List (List Nat)) (st : ConnState) (pending : List (List Nat)),
      st.closed = true → (drive st pending cs).1 = st := by
  intro cs
  rcases cs with _ | ⟨c, cs'⟩ <;> intro st pending hcl
  · rfl
  · rw [drive]
    simp only [hcl, if_true]

theorem maskfree_of_not_closed :
    ∀ (n : Nat) (st : ConnState) (b : List Nat), b.length ≤ n →
      (∀ fd ∈ decodeFrames b, fd.opcode ≠ 8) →
      st.closed = false →
      (processBuffer st b).1.closed = false →
      ∀ fd ∈ decodeFrames b, fd.masked = false := by
  intro n
  induction n using Nat.strong_induction_on with
  | _ n ih =>
    intro st b hb hop hcl hres
    rcases hdec : decodeWebSocketFrame b with _ | f
    · intro fd hfd
      rw [decodeFrames_eq, hdec] at hfd
      exact absurd hfd (List.not_mem_nil fd)
    · have hbound := decode_some_bound hdec
      by_cases hm : f.masked
      · exfalso
        rw [show processBuffer st b
            = (wsDestroy (wsSendClose st (asciiBytes "masked frame")) none, []) from by
          rw [processBuffer_eq, hdec]
          simp only [hm]
          rfl] at hres
        simp [wsDestroy, wsSendClose, emitAction] at hres
      · have hm' : f.masked = false := by
          rcases hmm : f.masked
          · rfl
          · exact absurd hmm hm
        have hop8 : f.opcode ≠ 8 := by
          have := hop f.data (by rw [decodeFrames_eq, hdec]; exact List.mem_cons_self _ _)
          exact this
        have hR : processBuffer st b
            = processBuffer (handleDataFrame st f.payload f.opcode f.fin) f.remaining := by
          rw [processBuffer_eq, hdec]
          simp only [hm']
          rfl
        rw [hR] at hres
        have hcl' : (handleDataFrame st f.payload f.opcode f.fin).closed = false := by
          rw [handleDataFrame_closed st f.payload f.opcode f.fin hop8]
          exact hcl
        have hop' : ∀ fd ∈ decodeFrames f.remaining, fd.opcode ≠ 8 := by
          intro fd hfd
          exact hop fd (by rw [decodeFrames_eq, hdec]; exact List.mem_cons_of_mem _ hfd)
        have htail := ih f.remaining.length (by omega) _ f.remaining (le_refl _)
          hop' hcl' hres
        intro fd hfd
        rw [decodeFrames_eq, hdec] at hfd
        rcases List.mem_cons.mp hfd with rfl | hfd2
        · exact hm'
        · exact htail fd hfd2

theorem processBuffer_append_aborted :
    ∀ (n : Nat) (st : ConnState) (b1 b2 : List Nat), b1.length ≤ n →
      (∀ fd ∈ decodeFrames b1, fd.opcode ≠ 8) →
      st.closed = false →
      (processBuffer st b1).1.closed = true →
      (processBuffer st (b1 ++ b2)).1 = (processBuffer st b1).1 := by
  intro n
  induction n using Nat.strong_induction_on with
  | _ n ih =>
    intro st b1 b2 hb hop hcl habort
    rcases hdec : decodeWebSocketFrame b1 with _ | f
    · exfalso
      rw [show processBuffer st b1 = (st, b1) from by rw [processBuffer_eq, hdec]] at habort
      rw [hcl] at habort
      exact Bool.false_ne_true habort
    · have hbound := decode_some_bound hdec
      have hext := decode_extend (e := b2) hdec
      by_cases hm : f.masked
      · rw [show processBuffer st b1
            = (wsDestroy (wsSendClose st (asciiBytes "masked frame")) none, []) from by
          rw [processBuffer_eq, hdec]
          simp only [hm]
          rfl]
        rw [show processBuffer st (b1 ++ b2)
            = (wsDestroy (wsSendClose st (asciiBytes "masked frame")) none, []) from by
          rw [processBuffer_eq, hext]
          simp only [hm]
          rfl]
      · have hm' : f.masked = false := by
          rcases hmm : f.masked
          · rfl
          · exact absurd hmm hm
        have hop8 : f.opcode ≠ 8 := by
          have := hop f.data (by rw [decodeFrames_eq, hdec]; exact List.mem_cons_self _ _)
          exact this
        have hR : processBuffer st b1
            = processBuffer (handleDataFrame st f.payload f.opcode f.fin) f.remaining := by
          rw [processBuffer_eq, hdec]
          simp only [hm']
          rfl
        have hL : processBuffer st (b1 ++ b2)
            = processBuffer (handleDataFrame st f.payload f.opcode f.fin)
                (f.remaining ++ b2) := by
          rw [processBuffer_eq, hext]
          simp only [hm']
          rfl
        have hcl' : (handleDataFrame st f.payload f.opcode f.fin).closed = false := by
          rw [handleDataFrame_closed st f.payload f.opcode f.fin hop8]
          exact hcl
        have hop' : ∀ fd ∈ decodeFrames f.remaining, fd.opcode ≠ 8 := by
          intro fd hfd
          exact hop fd (by rw [decodeFrames_eq, hdec]; exact List.mem_cons_of_mem _ hfd)
        rw [hR] at habort
        rw [hL, hR]
        exact ih f.remaining.length (by omega) _ f.remaining b2 (le_refl _) hop' hcl' habort

theorem drive_eq_no_close :
    ∀ (cs : List (List Nat)) (st : ConnState) (pending : List (List Nat)),
      st.closed = false →
      decodeWebSocketFrame pending.flatten = none →
      (∀ fd ∈ decodeFrames (pending.flatten ++ cs.flatten), fd.opcode ≠ 8) →
      (drive st pending cs).1 = (processBuffer st (pending.flatten ++ cs.flatten)).1 := by
  intro cs
  induction cs with
  | nil =>
      intro st pending hcl hpend hben
      rw [drive]
      rw [show processBuffer st (pending.flatten ++ ([] : List (List Nat)).flatten)
          = (st, pending.flatten) from by
        simp only [List.flatten_nil, List.append_nil]
        rw [processBuffer_eq, hpend]]
  | cons c cs' ih =>
      intro st pending hcl hpend hben
      rw [drive]
      simp only [hcl, Bool.false_eq_true, if_false]
      have hwhole : pending.flatten ++ (c :: cs').flatten
          = (pending ++ [c]).flatten ++ cs'.flatten := by simp
      set F := (pending ++ [c]).flatten with hF
      have hsplit := decodeFramesRest_append F.length F cs'.flatten (le_refl _)
      have hbenF : ∀ fd ∈ decodeFrames F, fd.opcode ≠ 8 := by
        intro fd hfd
        refine hben fd ?_
        rw [hwhole, hsplit.1]
        exact List.mem_append_left _ hfd
      have hstate := processChunks_join_state (F.length + (pending ++ [c]).length) st
        (pending ++ [c]) (by rw [hF])
      rw [← hF] at hstate
      set r := processChunks st (pending ++ [c]) with hr
      by_cases hcl' : r.1.closed
      · -- the loop aborted at a masked frame: everything after is dropped on both paths
        have habort : (processBuffer st F).1.closed = true := by
          rw [← hstate]
          exact hcl'
        rw [drive_closed cs' r.1 r.2 hcl']
        rw [hwhole]
        rw [processBuffer_append_aborted F.length st F cs'.flatten (le_refl _)
          hbenF hcl habort]
        exact hstate
      · -- no abort: every frame decoded from F was unmasked
        have hclr : r.1.closed = false := by
          simp only [Bool.not_eq_true] at hcl'
          exact hcl'
        have hclF : (processBuffer st F).1.closed = false := by
          rw [← hstate]
          exact hclr
        have hbenFm : ∀ fd ∈ decodeFrames F, fd.masked = false :=
          maskfree_of_not_closed F.length st F (le_refl _) hbenF hcl hclF
        obtain ⟨hj1, hj2⟩ := processChunks_join (F.length + (pending ++ [c]).length) st
          (pending ++ [c]) (by rw [hF]) hbenFm
        rw [← hF] at hj1 hj2
        obtain ⟨hleft, hdecnone⟩ := processBuffer_no_abort F.length st F (le_refl _) hbenFm
        have hpend' : decodeWebSocketFrame r.2.flatten = none := by
          rw [hj2]; exact hdecnone
        have hben' : ∀ fd ∈ decodeFrames (r.2.flatten ++ cs'.flatten), fd.opcode ≠ 8 := by
          intro fd hfd
          refine hben fd ?_
          rw [hwhole, hsplit.1]
          refine List.mem_append_right _ ?_
          rw [hj2, hleft] at hfd
          exact hfd
        have := ih r.1 r.2 hclr hpend' hben'
        rw [this]
        have hpba := processBuffer_append F.length st F cs'.flatten (le_refl _) hbenFm
        rw [hwhole, hpba, ← hj1, ← hj2]

/-- C2 (amended): for every wire byte sequence in which no complete frame has
opcode CLOSE (0x8), splitting it into non-empty chunks and driving the
incremental decode loop one chunk at a time produces the same final connection
state — hence the same sequence of decoded frames and of emitted `message`
events — as feeding the whole sequence as a single chunk.  Masked frames are
allowed: the masked-violation branch breaks out of the loop BEFORE pushing the
remaining bytes back, so the bytes after a masked frame are dropped on the split
path and on the whole path alike.  Only CLOSE frames break the invariance: they
destroy the socket without breaking the loop, so bytes after a CLOSE frame in the
same chunk are still processed while chunks not yet delivered are dropped.  On
NEED_MORE the concatenated partial bytes are pushed back to the front of the
FIFO, and on success the remaining bytes are pushed back as a single chunk,
exactly as in `_processChunk`. -/
theorem processChunk_chunking_invariance (cs : List (List Nat))
    (hne : ∀ c ∈ cs, c ≠ [])
    (hben : ∀ fd ∈ decodeFrames cs.flatten, fd.opcode ≠ 8) :
    (drive openConnState [] cs).1 = (drive openConnState [] [cs.flatten]).1 ∧
    messageEvents (drive openConnState [] cs).1.trace
      = messageEvents (drive openConnState [] [cs.flatten]).1.trace := by
  have hd1 := drive_eq_no_close cs openConnState [] rfl rfl (by simpa using hben)
  have hd2 := drive_eq_no_close [cs.flatten] openConnState [] rfl rfl (by simpa using hben)
  have : (drive openConnState [] cs).1 = (drive openConnState [] [cs.flatten]).1 := by
    rw [hd1, hd2]
    simp
  exact ⟨this, by rw [this]⟩

/-- C2 witness: a stream consisting of a masked TEXT frame (split in the middle
of the frame) followed by an unmasked TEXT frame is driven to the same final
state chunked as whole — the hypothesis admits masked frames. -/
theorem processChunk_chunking_invariance_witness :
    ((∀ c ∈ [[0x81, 0x81, 1], [2, 3, 4, 0x60, 0x81, 0x01, 0x61]], c ≠ []) ∧
      (∀ fd ∈ decodeFrames
          ([[0x81, 0x81, 1], [2, 3, 4, 0x60, 0x81, 0x01, 0x61]] : List (List Nat)).flatten,
        fd.opcode ≠ 8)) ∧
    (drive openConnState [] [[0x81, 0x81, 1], [2, 3, 4, 0x60, 0x81, 0x01, 0x61]]).1
      = (drive openConnState []
          [([[0x81, 0x81, 1], [2, 3, 4, 0x60, 0x81, 0x01, 0x61]] : List (List Nat)).flatten]).1 :=
  ⟨⟨by decide, by decide⟩,
    (processChunk_chunking_invariance [[0x81, 0x81, 1], [2, 3, 4, 0x60, 0x81, 0x01, 0x61]]
      (by decide) (by decide)).1⟩

/-- C2 counterexample: for the byte stream CLOSE-frame ++ TEXT-frame, feeding the
two frames as separate chunks emits no `message` event (the CLOSE frame destroys
the socket, so the second chunk never arrives), while feeding the whole stream at
once still delivers the TEXT frame after the CLOSE — the claimed unconditional
equality of emitted `message` events is false. -/
theorem processChunk_chunking_counterexample :
    messageEvents ((drive openConnState [] [[0x88, 0x00], [0x81, 0x01, 0x61]]).1.trace)
      ≠ messageEvents ((drive openConnState [] [[0x88, 0x00, 0x81, 0x01, 0x61]]).1.trace) := by
  decide

theorem closeEventCount_append (t1 t2 : List WSAction) :
    closeEventCount (t1 ++ t2) = closeEventCount t1 + closeEventCount t2 :=
  List.countP_append _ _ _

theorem closeEventCount_runConnOp (st : ConnState) (op : ConnOp) :
    closeEventCount (runConnOp st op).trace
      = closeEventCount st.trace + (if op.invokesDestroy then 1 else 0) := by
  rcases op with p | _ | p | _ | m <;>
    simp [runConnOp, ConnOp.invokesDestroy, wsClose, wsDestroy, wsSendClose,
      handleDataFrame, emitAction, closeEventCount_append, closeEventCount] <;>
    split_ifs <;>
    simp [wsDestroy, wsSendClose, emitAction, closeEventCount_append, closeEventCount]

/-- C6 (amended): the `close` event is emitted exactly once per `destroy()`
invocation, not exactly once per connection: after any sequence of lifecycle
operations, the number of emitted `close` events equals the number of operations
that reach `destroy()` (local `destroy()`, inbound CLOSE frame, masking violation,
transport error); `destroy()` itself has no re-entry guard. -/
theorem close_event_count (ops : List ConnOp) :
    closeEventCount (runConnOps openConnState ops).trace
      = (ops.filter ConnOp.invokesDestroy).length := by
  suffices h : ∀ (st : ConnState) (ops : List ConnOp),
      closeEventCount (runConnOps st ops).trace
        = closeEventCount st.trace + (ops.filter ConnOp.invokesDestroy).length by
    rw [h]
    simp [openConnState, closeEventCount]
  intro st ops
  induction ops generalizing st with
  | nil => simp [runConnOps]
  | cons op rest ih =>
      rw [show runConnOps st (op :: rest) = runConnOps (runConnOp st op) rest from rfl]
      rw [ih]
      rw [closeEventCount_runConnOp]
      rcases hop : op.invokesDestroy <;> simp [List.filter_cons, hop] <;> omega

/-- C6 counterexample: an inbound CLOSE frame followed by a transport error (a
combination the claim explicitly ranges over) emits the `close` event twice, so
`close` is not emitted exactly once over the connection's lifetime. -/
theorem close_event_count_counterexample :
    closeEventCount (runConnOps openConnState
      [.inboundCloseFrame [], .transportError "read ECONNRESET"]).trace ≠ 1 := by
  decide

/-- C3 counterexample: `src/_internal/encodeWebSocketFrame.js` called with opcode
CONTINUATION (0x0), a non-empty payload and `perMessageDeflate = true` sets the
0x40 (RSV1) bit in the first byte — exactly what `send` in `src/WebSocket.js`
(v0.2.3) does for every continuation fragment on a permessage-deflate connection.
(`deflateRaw` is instantiated with the identity; the first byte does not depend on
the deflate output.) -/
theorem encode_rsv1_on_continuation_counterexample :
    (encodeWebSocketFrame id [] [0x61] 0x0 false true true).headD 0 &&& 0x40 ≠ 0 := by
  decide

/-- C3 (amended): the `encodeWebSocketFrame` revision of `src/unnamed/part_018`
(v1.0.1) — the one that receives the payload already compressed and the
`compressed` flag precomputed, as called by `send` of `src/unnamed/part_002` —
never sets the 0x40 (RSV1) bit on a frame whose opcode is CONTINUATION (0x0), for
every payload, masking key, mask flag, fin flag and compressed flag; so a message
sent through that pairing carries RSV1 on at most its first frame.  The
`src/_internal/encodeWebSocketFrame.js` revision, by contrast, sets 0x40 on any
frame it compresses, continuation frames included (see the counterexample). -/
theorem encodeWebSocketFrameP18_no_rsv1_on_continuation
    (maskingKey payload : List Nat) (opcode : Nat) (mask fin compressed : Bool)
    (hop : opcode = 0x0) :
    (encodeWebSocketFrameP18 maskingKey payload opcode mask fin compressed).headD 0
      &&& 0x40 = 0 := by
  subst hop
  rw [encodeWebSocketFrameP18]
  simp only [bne_self_eq_false, Bool.and_false, Bool.false_eq_true, if_false]
  split_ifs <;> cases fin <;> simp [bytesBE8] <;> decide

/-- C3 witness: a concrete compressed continuation fragment encoded by the
part_018 encoder has the 0x40 bit clear. -/
theorem encodeWebSocketFrameP18_no_rsv1_on_continuation_witness :
    (encodeWebSocketFrameP18 [] [0x61] 0x0 false false true).headD 0 &&& 0x40 = 0 :=
  encodeWebSocketFrameP18_no_rsv1_on_continuation [] [0x61] 0x0 false false true rfl

theorem accept_line_ne_ext (k : String) :
    ("Sec-WebSocket-Accept: " ++ k) ≠ "Sec-WebSocket-Extensions: permessage-deflate" := by
  intro h
  have hd : ("Sec-WebSocket-Accept: " ++ k).data
      = ("Sec-WebSocket-Extensions: permessage-deflate" : String).data :=
    congrArg String.data h
  rw [String.data_append] at hd
  have h14 := congrArg (fun l => l.getD 14 ' ') hd
  simp only [] at h14
  rw [List.getD_append _ _ _ _ (by decide)] at h14
  exact absurd h14 (by decide)

/-- C8 counterexample: with the server configured for compression
(`perMessageDeflate = true`) and a client upgrade request that does NOT offer
permessage-deflate (no `Sec-WebSocket-Extensions` header), the v0.2.1
`_handleUpgrade` of `src/WebSocketServer.js` still writes the
`Sec-WebSocket-Extensions: permessage-deflate` line and marks the socket — the
claimed "present iff the client offered AND the server is configured" is false. -/
theorem upgrade_extensions_header_counterexample :
    ("Sec-WebSocket-Extensions: permessage-deflate"
        ∈ (wsServerHandleUpgradeV021 true "k"
            { upgrade := some "websocket", secWebSocketKey := some "x",
              secWebSocketExtensions := none }).responseLines) ∧
    (wsServerHandleUpgradeV021 true "k"
        { upgrade := some "websocket", secWebSocketKey := some "x",
          secWebSocketExtensions := none }).socketPerMessageDeflate = true ∧
    clientOffersPerMessageDeflate
      { upgrade := some "websocket", secWebSocketKey := some "x",
        secWebSocketExtensions := none } = false := by
  refine ⟨?_, rfl, rfl⟩
  simp [wsServerHandleUpgradeV021]

/-- C8 (amended): in the v1.0.1 `_handleUpgrade` (`src/unnamed/part_018`) the
`Sec-WebSocket-Extensions: permessage-deflate` line is present in the 101
response, and the connection is marked with `perMessageDeflate`, exactly when the
client's request offered permessage-deflate AND the server is configured to
support compression; in the v0.2.1 `_handleUpgrade` (`src/WebSocketServer.js`)
both happen exactly when the server's `perMessageDeflate` option is set,
regardless of the client's offer. -/
theorem upgrade_extensions_header
    (acceptKey : String) (h : UpgradeRequestHeaders)
    (hup : h.upgrade = some "websocket") (hkey : h.secWebSocketKey.isSome = true) :
    (∀ support : Bool,
      (("Sec-WebSocket-Extensions: permessage-deflate"
          ∈ (wsServerHandleUpgradeP18 support acceptKey h).responseLines)
        ↔ (clientOffersPerMessageDeflate h = true ∧ support = true)) ∧
      ((wsServerHandleUpgradeP18 support acceptKey h).socketPerMessageDeflate = true
        ↔ (clientOffersPerMessageDeflate h = true ∧ support = true))) ∧
    (∀ serverPMD : Bool,
      (("Sec-WebSocket-Extensions: permessage-deflate"
          ∈ (wsServerHandleUpgradeV021 serverPMD acceptKey h).responseLines)
        ↔ serverPMD = true) ∧
      ((wsServerHandleUpgradeV021 serverPMD acceptKey h).socketPerMessageDeflate = true
        ↔ serverPMD = true)) := by
  have hguard : (h.upgrade == some "websocket" && h.secWebSocketKey.isSome) = true := by
    simp [hup, hkey]
  constructor
  · intro support
    rw [wsServerHandleUpgradeP18]
    simp only [hguard, if_true]
    constructor
    · rcases hoff : clientOffersPerMessageDeflate h <;> rcases support <;>
        simp [List.mem_append, accept_line_ne_ext acceptKey, (accept_line_ne_ext acceptKey).symm]
    · rcases hoff : clientOffersPerMessageDeflate h <;> rcases support <;> simp
  · intro serverPMD
    rw [wsServerHandleUpgradeV021]
    simp only [hguard, if_true]
    constructor
    · rcases serverPMD <;>
        simp [List.mem_append, accept_line_ne_ext acceptKey, (accept_line_ne_ext acceptKey).symm]
    · rcases serverPMD <;> simp

/-- C8 witness: a request that offers permessage-deflate against a supporting
server gets the extensions line from the v1.0.1 handler. -/
theorem upgrade_extensions_header_witness :
    ("Sec-WebSocket-Extensions: permessage-deflate"
        ∈ (wsServerHandleUpgradeP18 true "k"
            { upgrade := some "websocket", secWebSocketKey := some "x",
              secWebSocketExtensions := some "permessage-deflate; client_max_window_bits" }).responseLines)
      ↔ (clientOffersPerMessageDeflate
          { upgrade := some "websocket", secWebSocketKey := some "x",
            secWebSocketExtensions := some "permessage-deflate; client_max_window_bits" } = true
          ∧ true = true) :=
  ((upgrade_extensions_header "k"
      { upgrade := some "websocket", secWebSocketKey := some "x",
        secWebSocketExtensions := some "permessage-deflate; client_max_window_bits" }
      (by decide) (by decide)).1 true).1

/-- C9: after the client parses a successful 101 handshake response it sets
`readyState` to OPEN (1) and appends to its trace exactly a PING write with empty
payload followed by the `open` event, in that order; on the server side, the state
produced by `_handleUpgradedConnection` after writing the 101 response still has
`readyState = 0` (CONNECTING) and an empty trace (no `open` emitted), and routing
the first inbound PING frame sets `readyState` to 1 and emits `ping`, then `open`,
then writes the PONG echo. -/
theorem open_event_sequencing :
    (∀ (st : ConnState) (chunk : List Nat) (r : HandshakeResult),
      decodeWebSocketHandshakeResponse chunk = some r →
      r.handshakeSucceeded = true →
      (clientProcessHandshakeChunk st chunk).1.readyState = 1 ∧
      (clientProcessHandshakeChunk st chunk).1.trace
        = st.trace ++ [.writePing [], .openEvt]) ∧
    (serverAfterUpgradeState.readyState = 0 ∧ serverAfterUpgradeState.trace = [] ∧
      ∀ payload : List Nat,
        (serverHandleDataFrame serverAfterUpgradeState payload 0x9 true).readyState = 1 ∧
        (serverHandleDataFrame serverAfterUpgradeState payload 0x9 true).trace
          = [.pingEvt payload, .openEvt, .writePong payload]) := by
  constructor
  · intro st chunk r hdec hsucc
    rw [clientProcessHandshakeChunk, hdec]
    simp only [hsucc, Bool.not_true, Bool.false_eq_true, if_false]
    rcases hpmd : r.perMessageDeflate <;> simp
  · refine ⟨rfl, rfl, ?_⟩
    intro payload
    constructor <;>
      rfl

/-- C9 witness: the client part applied to a concrete minimal 101 response. -/
theorem open_event_sequencing_witness :
    (clientProcessHandshakeChunk openConnState
        (asciiBytes "HTTP/1.1 101 Switching Protocols\r\n\r\n")).1.readyState = 1 ∧
    (clientProcessHandshakeChunk openConnState
        (asciiBytes "HTTP/1.1 101 Switching Protocols\r\n\r\n")).1.trace
      = openConnState.trace ++ [.writePing [], .openEvt] :=
  open_event_sequencing.1 openConnState (asciiBytes "HTTP/1.1 101 Switching Protocols\r\n\r\n")
    { handshakeSucceeded := true, perMessageDeflate := false,
      message := asciiBytes "HTTP/1.1 101 Switching Protocols\r\n\r\n", remaining := [] }
    (by decide) rfl

/-- C10: the claim fails on the code.  The constructors register
`unhandledErrorListener.bind(this)`; `Function.prototype.bind` returns a new
function object, so when an `error` is emitted with that bound copy as the only
listener, the guard `errorListeners[0] == unhandledErrorListener` compares the
bound copy against the module-level function and is false — nothing is printed
and the process does not exit (first conjunct), contradicting the claim (and the
function's own doc comment and unit test, which exercise the UNBOUND function:
second conjunct shows the intended behavior fires only then).  With another
listener attached it does nothing, as claimed (third conjunct). -/
theorem unhandledErrorListener_bound_noop :
    unhandledErrorListener autoInstalledErrorListeners = [] ∧
    unhandledErrorListener [.unhandledErrorListenerFn]
      = [.consoleErrorAct, .processExitAct 1] ∧
    unhandledErrorListener [.boundUnhandledErrorListener, .otherListener 0] = [] := by
  decide

/-- C5: the fragmentation loop of `send` bounds its index by the JS
`payload.length` — the UTF-16 string length — while slicing the UTF-8 `buffer`,
so for the multi-byte string "ééé" (3 UTF-16 units, 6 UTF-8 bytes) with
`maxMessageLength = 2` it emits only two frames covering the first 4 bytes (the
second already carrying `fin = true`) and silently drops the last 2 bytes: the
concatenation of the emitted frame payloads does not equal the payload being
sent. -/
theorem send_multibyte_string_drops_bytes :
    wsSend 2 false (.str [0xE9, 0xE9, 0xE9])
      = [{ payload := [0xC3, 0xA9], opcode := 0x1, mask := true, fin := false,
           perMessageDeflate := false },
         { payload := [0xC3, 0xA9], opcode := 0x0, mask := true, fin := true,
           perMessageDeflate := false }] ∧
    ((wsSend 2 false (.str [0xE9, 0xE9, 0xE9])).map WriteCall.payload).flatten
      ≠ utf8Encode [0xE9, 0xE9, 0xE9] := by
  decide
